import Mathlib

/-!
Verification of the Radius execution pipeline.

Shallow embedding of the core execution pipeline of the Radius API request
runner: the variable resolver (`VariableResolver.ts`), the per-run session
store (`SessionManager.ts`), the script sandbox surface
(`ScriptSandbox.ts` / `RadiusContext.ts`) and the orchestrator
(`RequestRunner.ts`).

Modelling conventions:
* JavaScript strings are modelled as `List Char`.
* Asynchronous lookups (`async get`) carry no effects beyond their result,
  so they are modelled as pure functions `List Char → Option (List Char)`.
* The impure platform primitives `Math.random()`, `Date.now()` and
  `new Date().toISOString()` are modelled as ambient streams (`World`)
  indexed by a call counter (`WState`): the `k`-th call to `Math.random()`
  returns `World.rand k`, and so on.
* Thrown `Error` values are modelled by an `Except` error type carrying the
  data interpolated into the message; `errMessage` renders the exact
  message strings of the source.
* `Array.prototype.sort` with the comparator `(a, b) => b.priority - a.priority`
  is required by the ECMAScript specification to be stable, so it is modelled
  by the (stable) insertion sort `List.insertionSort` with the relation
  "may precede": `a` may precede `b` iff `b.priority ≤ a.priority`.
* `String.prototype.replace` with a string pattern replaces the first
  occurrence of the pattern; the `$`-escape forms in replacement strings are
  not modelled (replacement is literal).
-/

namespace Radius

/-- The `LEFT CURLY BRACKET` character of the `\x7b\x7b name \x7d\x7d`
placeholder syntax. -/
def lbrace : Char := '\x7b'

/-- The `RIGHT CURLY BRACKET` character. -/
def rbrace : Char := '\x7d'

/-- JavaScript `String.prototype.trim` whitespace: the ECMAScript
`WhiteSpace` and `LineTerminator` code points. -/
def isJsSpace (c : Char) : Bool :=
  c = ' ' || c = '\t' || c = '\n' || c = '\r' || c.val = 11 || c.val = 12 ||
  c.val = 0xa0 || c.val = 0xfeff || c.val = 0x1680 ||
  (0x2000 ≤ c.val && c.val ≤ 0x200a) || c.val = 0x2028 || c.val = 0x2029 ||
  c.val = 0x202f || c.val = 0x205f || c.val = 0x3000

/-- JavaScript `String.prototype.trim`: strip whitespace from both ends. -/
def trimChars (s : List Char) : List Char :=
  ((s.dropWhile isJsSpace).reverse.dropWhile isJsSpace).reverse

/-- One decimal digit character. -/
def digitChar (d : Nat) : Char :=
  Char.ofNat (48 + d % 10)

/-- Decimal digit accumulator: most significant digit first. The fuel is
an upper bound on the number of digits (any value > number of digits
gives the same result). -/
def natToCharsAux : Nat → Nat → List Char → List Char
  | 0, _, acc => acc
  | fuel + 1, n, acc =>
    if n < 10 then digitChar n :: acc
    else natToCharsAux fuel (n / 10) (digitChar n :: acc)

/-- Decimal digits of a natural number, as produced by
`Number.prototype.toString()` on a non-negative integer. -/
def natToChars (n : Nat) : List Char :=
  natToCharsAux (n + 1) n []

/-- Model of `Number.prototype.toString()` on an integer-valued JS number. -/
def intToChars (i : Int) : List Char :=
  if i < 0 then '-' :: natToChars (-i).toNat else natToChars i.toNat

/-- Model of `Array.prototype.join(', ')` over a list of strings. -/
def joinComma (l : List (List Char)) : List Char :=
  match l with
  | [] => []
  | [x] => x
  | x :: xs => x ++ ',' :: ' ' :: joinComma xs

/-- Model of ECMAScript `GetSubstitution` for a string-pattern
`String.prototype.replace` (no capture groups, no named captures): the
replacement text is scanned left to right; `$$` yields `$`, `$&` the
matched substring `m`, `$` followed by `\x60` (backquote) the portion `b`
of the searched string preceding the match, `$` followed by `\x27`
(single quote) the portion `a` following the match; any other `$`
(including before digits, as there are no captures, and a trailing `$`)
and every other character are copied verbatim. -/
def getSubstitution (m b a : List Char) : List Char → List Char
  | [] => []
  | c :: rest =>
    if c = '$' then
      match rest with
      | [] => ['$']
      | d :: rest2 =>
        if d = '$' then '$' :: getSubstitution m b a rest2
        else if d = '&' then m ++ getSubstitution m b a rest2
        else if d = '\x60' then b ++ getSubstitution m b a rest2
        else if d = '\x27' then a ++ getSubstitution m b a rest2
        else '$' :: getSubstitution m b a (d :: rest2)
    else c :: getSubstitution m b a rest

/-- The scan of `replaceFirst`, carrying the already-passed text `b` so
the substitution sees the portion of the string preceding the match. -/
def replaceFirstAux (pat repl : List Char) : List Char → List Char → List Char
  | b, [] => if pat.isEmpty then getSubstitution pat b [] repl else []
  | b, c :: rest =>
    if pat.isPrefixOf (c :: rest) then
      getSubstitution pat b ((c :: rest).drop pat.length) repl ++
        (c :: rest).drop pat.length
    else c :: replaceFirstAux pat repl (b ++ [c]) rest

/-- JavaScript `str.replace(pat, repl)` with a string pattern and a string
replacement: replace the first occurrence of `pat` by `repl` with the
`GetSubstitution` `$`-escapes applied, leave `str` unchanged if `pat`
does not occur. -/
def replaceFirst (pat repl s : List Char) : List Char :=
  replaceFirstAux pat repl [] s

/-- A regex `\w` word character: `[A-Za-z0-9_]`. -/
def isWordChar (c : Char) : Bool :=
  ('A' ≤ c && c ≤ 'Z') || ('a' ≤ c && c ≤ 'z') || ('0' ≤ c && c ≤ '9') || c = '_'

/-! ## Placeholder scanning

The resolver's `VARIABLE_PATTERN_STR = '\\x7b\\x7b([^\x7d]+)\\x7d\\x7d'`
(two left braces, one-or-more non-right-brace characters, two right
braces), matched globally left to right as by `String.prototype.matchAll`.
Since `[^\x7d]+` is a greedy run that cannot cross a right brace, a match
at a position exists iff the maximal non-right-brace run after the two
left braces is nonempty and is followed by two right braces. -/

/-- Try to match the variable pattern at the head of `t`. On success returns
`(fullMatch, captureGroup, remainderAfterMatch)`. -/
def matchAt (t : List Char) : Option (List Char × List Char × List Char) :=
  match t with
  | c1 :: c2 :: rest =>
    if c1 = lbrace && c2 = lbrace then
      if (rest.takeWhile (fun c => c ≠ rbrace)).isEmpty then none
      else
        match rest.dropWhile (fun c => c ≠ rbrace) with
        | r1 :: r2 :: after =>
          if r1 = rbrace && r2 = rbrace then
            some (lbrace :: lbrace ::
                    (rest.takeWhile (fun c => c ≠ rbrace) ++ rbrace :: rbrace :: []),
                  rest.takeWhile (fun c => c ≠ rbrace), after)
          else none
        | _ => none
    else none
  | _ => none

/-- Fuel-indexed scanner: on a failed match advance one character, on a
successful match continue after the match (non-overlapping, like a global
regex). The fuel only needs to be at least the string length. -/
def scanAux : Nat → List Char → List (List Char × List Char)
  | 0, _ => []
  | _ + 1, [] => []
  | fuel + 1, c :: rest =>
    match matchAt (c :: rest) with
    | some (full, grp, after) => (full, grp) :: scanAux fuel after
    | none => scanAux fuel rest

/-- All matches of the variable pattern in `t`, in order:
`[...template.matchAll(createVariablePattern())]`. -/
def scanMatches (t : List Char) : List (List Char × List Char) :=
  scanAux t.length t

/-- Model of `hasVariables`: whether the string contains a variable placeholder. -/
def hasVariables (t : List Char) : Bool :=
  !(scanMatches t).isEmpty

/-! ## Ambient platform effects -/

/-- The impure platform primitives, as streams indexed by call number. -/
structure World where
  /-- Successive results of `Math.random()`; each lies in `[0, 1)`. -/
  rand : Nat → ℚ
  /-- Successive results of `Date.now()` (epoch milliseconds). -/
  now : Nat → Nat
  /-- Successive results of `new Date().toISOString()`. -/
  iso : Nat → List Char

/-- Call counters: how many times each primitive has been invoked. -/
structure WState where
  nrand : Nat
  nnow : Nat
  niso : Nat
  deriving DecidableEq

/-! ## Built-in dynamic variables (`VariableResolver.resolveBuiltin`) -/

/-- Model of `v.toString(16)` for `v ≤ 15`: one lowercase hex digit. -/
def hexChar (n : Nat) : Char :=
  ("0123456789abcdef".toList).getD n '0'

/-- Model of `(Math.random() * 16) | 0` for a draw `q`: truncation of `q * 16`
(equal to the floor on the contractual range `0 ≤ q < 1`). -/
def draw16 (q : ℚ) : Nat :=
  (Int.floor (q * 16)).toNat

/-- The replacement template of `generateUuid`. -/
def uuidTemplate : List Char :=
  "xxxxxxxx-xxxx-4xxx-yxxx-xxxxxxxxxxxx".toList

/-- The `replace(/[xy]/g, ...)` callback loop of `generateUuid`: each `x`
becomes a random hex digit `r`, each `y` becomes `(r & 0x3) | 0x8` in hex;
other characters are copied. Returns the produced string and the updated
`Math.random()` call counter. -/
def uuidGo (rand : Nat → ℚ) : List Char → Nat → List Char × Nat
  | [], k => ([], k)
  | c :: cs, k =>
    if c = 'x' then
      let rest := uuidGo rand cs (k + 1)
      (hexChar (draw16 (rand k)) :: rest.1, rest.2)
    else if c = 'y' then
      let rest := uuidGo rand cs (k + 1)
      (hexChar ((draw16 (rand k)) &&& 3 ||| 8) :: rest.1, rest.2)
    else
      let rest := uuidGo rand cs k
      (c :: rest.1, rest.2)

/-- Model of `VariableResolver.generateUuid`. -/
def generateUuid (rand : Nat → ℚ) (k : Nat) : List Char × Nat :=
  uuidGo rand uuidTemplate k

/-- Model of `Math.floor(Math.random() * 1000000)` for a draw `q`. -/
def randomIntDraw (q : ℚ) : Nat :=
  (Int.floor (q * 1000000)).toNat

/-- The capture group of `BUILTIN_PATTERN = /^\$(\w+)$/` applied to a
variable name, when the pattern matches. -/
def builtinGroup (n : List Char) : Option (List Char) :=
  match n with
  | '$' :: rest => if !rest.isEmpty && rest.all isWordChar then some rest else none
  | _ => none

/-- Model of `name.toLowerCase()` (the names reaching this point are `\w+`, hence
ASCII, so `Char.toLower` is exact). -/
def lowerChars (n : List Char) : List Char :=
  n.map Char.toLower

/-- Model of `VariableResolver.resolveBuiltin` on the capture group `name` (without
the `$`): dispatch on the lowercased name, consuming platform effects;
unknown names yield `undefined` and consume nothing. -/
def resolveBuiltin (w : World) (st : WState) (name : List Char) :
    Option (List Char) × WState :=
  let l := lowerChars name
  if l = "uuid".toList then
    let u := generateUuid w.rand st.nrand
    (some u.1, { st with nrand := u.2 })
  else if l = "timestamp".toList then
    (some (natToChars (w.now st.nnow)), { st with nnow := st.nnow + 1 })
  else if l = "isodate".toList then
    (some (w.iso st.niso), { st with niso := st.niso + 1 })
  else if l = "randomint".toList then
    (some (natToChars (randomIntDraw (w.rand st.nrand))),
     { st with nrand := st.nrand + 1 })
  else (none, st)

/-- Whether a variable name hits the built-in table: the `$(\w+)$` pattern
matches and the lowercased group is one of the four generators. -/
def isKnownBuiltinName (n : List Char) : Bool :=
  match builtinGroup n with
  | some g =>
    let l := lowerChars g
    l = "uuid".toList || l = "timestamp".toList || l = "isodate".toList ||
    l = "randomint".toList
  | none => false

/-! ## Variable sources and the resolver -/

/-- Model of `IVariableSource`: a named, priority-ranked lookup capability. The
asynchronous `get` has no effects beyond its result and is modelled as a
pure function. -/
structure VariableSource where
  name : List Char
  priority : Int
  get : List Char → Option (List Char)

/-- The "may precede" relation realised by the comparator
`(a, b) => b.priority - a.priority`: `a` may come before `b` iff
`b.priority ≤ a.priority`. -/
def srcLE (a b : VariableSource) : Prop :=
  b.priority ≤ a.priority

instance : DecidableRel srcLE := fun a b => Int.decLe b.priority a.priority

instance : IsTotal VariableSource srcLE :=
  ⟨fun a b => Int.le_total b.priority a.priority⟩

instance : IsTrans VariableSource srcLE :=
  ⟨fun _ _ _ h1 h2 => le_trans h2 h1⟩

/-- Model of `[...sources].sort((a, b) => b.priority - a.priority)`: the stable
descending sort of the constructor. -/
def sortSources (l : List VariableSource) : List VariableSource :=
  l.insertionSort srcLE

/-- The `env.` prefix stripped by `VariableResolver.lookup`. -/
def envDot : List Char := "env.".toList

/-- The name actually passed to the sources' `get`:
`name.startsWith('env.') ? name.slice(4) : name`. -/
def stripEnv (n : List Char) : List Char :=
  if envDot.isPrefixOf n then n.drop envDot.length else n

/-- The loop of `VariableResolver.lookup`: first source (in sorted order)
whose `get` returns a defined value wins. -/
def lookupSources : List VariableSource → List Char → Option (List Char)
  | [], _ => none
  | s :: rest, k =>
    match s.get k with
    | some v => some v
    | none => lookupSources rest k

/-- Model of `ResolverOptions` (all fields optional). -/
structure ResolverOptions where
  strict : Option Bool := none
  maxDepth : Option Nat := none

/-- The resolver after construction: sources sorted once, options
defaulted (`strict` defaults to `true`, `maxDepth` to `10`). -/
structure ResolverM where
  sources : List VariableSource
  strict : Bool
  maxDepth : Nat

/-- The `VariableResolver` constructor. -/
def mkResolver (srcs : List VariableSource) (opts : ResolverOptions) : ResolverM :=
  { sources := sortSources srcs
    strict := opts.strict.getD true
    maxDepth := opts.maxDepth.getD 10 }

/-- The two `Error`s thrown by the resolver, carrying the data that the
source interpolates into the message. -/
inductive RErr where
  | depthExceeded (maxDepth : Nat)
  | unresolvedVars (names : List (List Char))
  deriving DecidableEq

/-- The exact message strings of the thrown `Error`s. -/
def errMessage : RErr → List Char
  | .depthExceeded m =>
    "Variable resolution exceeded max depth (".toList ++ natToChars m ++
    "). Check for circular references.".toList
  | .unresolvedVars names =>
    "Unresolved variables: ".toList ++ joinComma names

/-- Model of `ResolveResult`: the resolved string and the unresolved names found. -/
structure ResolveRes where
  value : List Char
  unresolved : List (List Char)
  deriving DecidableEq

/-- The `for (const match of matches)` loop body of `resolveWithInfo`.
`recur` is the recursive call at depth + 1 (one unit less fuel);
`result` and `acc` are the loop's `result` and `unresolved` accumulators. -/
def goMatches (w : World) (R : ResolverM)
    (recur : List Char → WState → Except RErr (ResolveRes × WState)) :
    List (List Char × List Char) → List Char → List (List Char) → WState →
    Except RErr (ResolveRes × WState)
  | [], result, acc, st => .ok (⟨result, acc⟩, st)
  | (full, grp) :: rest, result, acc, st =>
    let varName := trimChars grp
    let bi := match builtinGroup varName with
              | some g => resolveBuiltin w st g
              | none => (none, st)
    match bi with
    | (some v, st1) => goMatches w R recur rest (replaceFirst full v result) acc st1
    | (none, st1) =>
      match lookupSources R.sources (stripEnv varName) with
      | some value =>
        if hasVariables value then
          match recur value st1 with
          | .error e => .error e
          | .ok (nested, st2) =>
            goMatches w R recur rest (replaceFirst full nested.value result)
              (acc ++ nested.unresolved) st2
      else
          goMatches w R recur rest (replaceFirst full value result) acc st1
      | none => goMatches w R recur rest result (acc ++ [varName]) st1

/-- Model of `resolveWithInfo(template, depth)`, fuel-indexed: a call at depth `d`
has fuel `maxDepth + 1 - d`, so fuel `0` is exactly the
`depth > maxDepth` guard throwing the depth-exceeded error. -/
def resolveGo (w : World) (R : ResolverM) :
    Nat → List Char → WState → Except RErr (ResolveRes × WState)
  | 0, _, _ => .error (.depthExceeded R.maxDepth)
  | fuel + 1, t, st => goMatches w R (resolveGo w R fuel) (scanMatches t) t [] st

/-- Model of `resolveWithInfo(template)` (top-level call at depth 0). -/
def resolveWithInfo (w : World) (R : ResolverM) (t : List Char) (st : WState) :
    Except RErr (ResolveRes × WState) :=
  resolveGo w R (R.maxDepth + 1) t st

/-- Model of `VariableResolver.resolve`: throw the aggregated unresolved-variables
error in strict mode, otherwise return the resolved string. -/
def resolveChars (w : World) (R : ResolverM) (t : List Char) (st : WState) :
    Except RErr (List Char × WState) :=
  match resolveWithInfo w R t st with
  | .error e => .error e
  | .ok (res, st') =>
    if R.strict && !res.unresolved.isEmpty then .error (.unresolvedVars res.unresolved)
    else .ok (res.value, st')

/-! ## JavaScript values and the session store (`SessionManager.ts`)

Script-produced values (`unknown` in the source) are modelled by the
closed tagged variant below. JS numbers are restricted to integer values
(floating-point formatting is out of scope); plain objects are collapsed
to a tag, since the only observation the pipeline makes of one is
`String(v)`, which yields `"[object Object]"` for an object with the
default `toString`. -/

/-- A JavaScript value at the sandbox/session boundary. -/
inductive JValue where
  | undef
  | jnull
  | jbool (b : Bool)
  | jnum (n : Int)
  | jstr (s : List Char)
  | jobj
  deriving DecidableEq

/-- JavaScript `String(v)` on a `JValue`. -/
def jsString : JValue → List Char
  | .undef => "undefined".toList
  | .jnull => "null".toList
  | .jbool true => "true".toList
  | .jbool false => "false".toList
  | .jnum n => intToChars n
  | .jstr s => s
  | .jobj => "[object Object]".toList

/-- A JS `Map<string, unknown>` as an association list in insertion order
with unique keys (as maintained by `mapSet`). -/
abbrev JMap := List (List Char × JValue)

/-- Model of `Map.prototype.get`: `none` when the key is absent. -/
def mapGet : JMap → List Char → Option JValue
  | [], _ => none
  | (k, v) :: rest, key => if key = k then some v else mapGet rest key

/-- Model of `Map.prototype.set`: overwrite in place, append new keys. -/
def mapSet : JMap → List Char → JValue → JMap
  | [], key, v => [(key, v)]
  | (k, w) :: rest, key, v =>
    if key = k then (k, v) :: rest else (k, w) :: mapSet rest key v

/-- The session's variable map (`SessionManager.variables`). -/
abbrev SessionState := JMap

/-- Model of `SessionManager.merge`: set every entry, overwriting existing keys. -/
def sessionMerge (s : SessionState) (vars : JMap) : SessionState :=
  vars.foldl (fun acc e => mapSet acc e.1 e.2) s

/-- Model of `SessionVariableSource.get`: coerce a defined stored value with
`String(v)`; a stored `undefined` is indistinguishable from absence
(`value !== undefined ? String(value) : undefined`). -/
def sessionSourceGet (s : SessionState) (key : List Char) : Option (List Char) :=
  match mapGet s key with
  | some v => if v = JValue.undef then none else some (jsString v)
  | none => none

/-- Model of `SessionManager.getVariableSource()`: the `Session` source, default
priority 500 (the highest in the pipeline). -/
def sessionSource (s : SessionState) (priority : Int) : VariableSource :=
  ⟨"Session".toList, priority, fun k => sessionSourceGet s k⟩

/-! ## Script sandbox (`ScriptSandbox.ts`, `RadiusContext.ts`)

The `vm`-hosted execution of arbitrary script text cannot be embedded;
what can is its observable surface: a script run is characterised by the
ordered sequence of context-mutating API calls it performs before it
finishes or throws (`ScriptBehavior`). The mapping from script text to
that behaviour is the external `vm` collaborator, passed as an oracle
where needed. -/

/-- One recorded assertion outcome (`ExpectResult`). -/
structure ExpectRes where
  passed : Bool
  message : List Char
  expected : Option JValue := none
  actual : Option JValue := none
  deriving DecidableEq

/-- A context-mutating sandbox API call observable from outside. -/
inductive ScriptOp where
  /-- Model of `radius.setVariable(k, v)`. -/
  | setVar (k : List Char) (v : JValue)
  /-- Model of `radius.log(...)`, already joined to one line; appends to the
  context's persistent `logs`. -/
  | radiusLog (m : List Char)
  /-- Model of `console.log(...)` (and its `info`/`warn`/`error`/`debug` aliases),
  already joined; appends to the per-execution `consoleLogs`. -/
  | consoleLog (m : List Char)
  /-- A terminal call on `radius.expect(...)`, recording one outcome. -/
  | assertRec (r : ExpectRes)
  deriving DecidableEq

/-- The observable behaviour of one script execution: the API calls
performed, in order, and `some message` if it ended by throwing (a timeout
abort included). -/
structure ScriptBehavior where
  ops : List ScriptOp
  failure : Option (List Char)

/-- An environment map (`Record<string, string | undefined>`). -/
abbrev EnvMap := List Char → Option (List Char)

/-- Model of `RadiusContextImpl`: the mutable state behind the `radius` API.
(The source field `variables` is named `vars` here; `variables` is a
reserved word in Lean.) -/
structure RContext where
  vars : JMap
  envVars : EnvMap
  logs : List (List Char)
  assertions : List ExpectRes

/-- Model of `new RadiusContextImpl(envVars)`. -/
def mkRContext (envVars : EnvMap) : RContext :=
  { vars := [], envVars := envVars, logs := [], assertions := [] }

/-- Model of `RadiusContextImpl.getEnv`: read-only lookup in the stored map. -/
def RContext.getEnv (ctx : RContext) (n : List Char) : Option (List Char) :=
  ctx.envVars n

/-- Apply one sandbox API call to the context and the per-execution
`consoleLogs` accumulator. -/
def applyOp (s : RContext × List (List Char)) (op : ScriptOp) :
    RContext × List (List Char) :=
  match op with
  | .setVar k v => ({ s.1 with vars := mapSet s.1.vars k v }, s.2)
  | .radiusLog m => ({ s.1 with logs := s.1.logs ++ [m] }, s.2)
  | .consoleLog m => (s.1, s.2 ++ [m])
  | .assertRec r => ({ s.1 with assertions := s.1.assertions ++ [r] }, s.2)

/-- Run a script's calls in order. -/
def runOps (ctx : RContext) (ops : List ScriptOp) : RContext × List (List Char) :=
  ops.foldl applyOp (ctx, [])

/-- Model of `ScriptResult`. -/
structure ScriptResult where
  success : Bool
  errorMsg : Option (List Char)
  logs : List (List Char)
  vars : JMap
  assertions : List ExpectRes

/-- Model of `SandboxOptions`. -/
structure SandboxOptions where
  timeout : Option Nat := none
  env : Option EnvMap := none

/-- Model of `ScriptSandbox` state. -/
structure Sandbox where
  timeout : Nat
  env : EnvMap
  context : RContext

/-- The `ScriptSandbox` constructor. `processEnv` is the ambient live
`process.env`; note `options.env ?? process.env`. -/
def mkSandbox (opts : SandboxOptions) (processEnv : EnvMap) : Sandbox :=
  let env := opts.env.getD processEnv
  { timeout := opts.timeout.getD 5000, env := env, context := mkRContext env }

/-- Model of `ScriptSandbox.resetContext`. -/
def Sandbox.resetContext (sb : Sandbox) : Sandbox :=
  { sb with context := mkRContext sb.env }

/-- Model of `ScriptSandbox.setVariables` (via `RadiusContextImpl.setVariables`). -/
def Sandbox.setVariables (sb : Sandbox) (vs : JMap) : Sandbox :=
  { sb with context :=
      { sb.context with
          vars := vs.foldl (fun acc e => mapSet acc e.1 e.2) sb.context.vars } }

/-- Model of `ScriptSandbox.executeScript` on an observable behaviour: the context
is mutated by the performed calls; the result snapshots
`[...consoleLogs, ...context.logs]`, the variable map and the assertion
list, whether or not the script threw (partial results are kept). -/
def Sandbox.executeScript (sb : Sandbox) (b : ScriptBehavior) :
    ScriptResult × Sandbox :=
  let r := runOps sb.context b.ops
  ({ success := b.failure.isNone
     errorMsg := b.failure
     logs := r.2 ++ r.1.logs
     vars := r.1.vars
     assertions := r.1.assertions },
   { sb with context := r.1 })

/-- The binding looked up by a name reference inside the `vm` context. -/
inductive ScopeVal where
  | radiusApi
  | consoleApi
  | builtinObj
  | undef
  | responseObj
  deriving DecidableEq

/-- The names explicitly blocked in the sandbox scope (bound to
`undefined`). -/
def blockedNames : List (List Char) :=
  ["process".toList, "require".toList, "module".toList, "exports".toList,
   "__dirname".toList, "__filename".toList, "global".toList,
   "globalThis".toList, "fetch".toList, "XMLHttpRequest".toList,
   "WebSocket".toList, "Buffer".toList, "setTimeout".toList,
   "setInterval".toList, "setImmediate".toList, "clearTimeout".toList,
   "clearInterval".toList, "clearImmediate".toList]

/-- The `sandbox` object passed to `vm.createContext`, in source order:
the `radius` and `console` APIs, the safe built-ins, the explicitly
blocked names bound to `undefined`, and (for post-scripts) `response`. -/
def sandboxScope (hasResponse : Bool) : List (List Char × ScopeVal) :=
  [("radius".toList, ScopeVal.radiusApi), ("console".toList, ScopeVal.consoleApi)] ++
  (["JSON", "Math", "Date", "Array", "Object", "String", "Number", "Boolean",
    "RegExp", "Error", "TypeError", "RangeError", "parseInt", "parseFloat",
    "isNaN", "isFinite", "encodeURI", "decodeURI", "encodeURIComponent",
    "decodeURIComponent"].map (fun s => (s.toList, ScopeVal.builtinObj))) ++
  [("undefined".toList, ScopeVal.undef), ("NaN".toList, ScopeVal.builtinObj),
   ("Infinity".toList, ScopeVal.builtinObj)] ++
  (blockedNames.map (fun n => (n, ScopeVal.undef))) ++
  (if hasResponse then [("response".toList, ScopeVal.responseObj)] else [])

/-- Name lookup in the sandbox scope. -/
def scopeLookup : List (List Char × ScopeVal) → List Char → Option ScopeVal
  | [], _ => none
  | (k, v) :: rest, key => if key = k then some v else scopeLookup rest key

/-! ## Orchestrator (`RequestRunner.ts`)

The request is modelled by the fields of `RadiusRequest` that the
pipeline resolves and executes: `request.method`, `request.url`,
`request.headers`, `request.body` and `scripts.pre` / `scripts.post`
(`meta` and `auth` are further string fields resolved the same way and
are omitted as claim-irrelevant). `resolveObject` walks the object and
applies `resolve` to every string leaf, leaving object keys untouched.

External collaborators are oracles:
* `transport : RadiusRequest → Response` is the HTTP collaborator
  (`HttpClient.execute`), which never throws (network failures are
  normalised to a status-0 response by contract);
* `vmRun : List Char → Option Response → ScriptBehavior` maps a script
  text (and the response visible to it, for post-scripts) to the
  observable behaviour of running it in the `vm`.

Construction note: `RequestRunner` rebuilds its resolver in `setSession`
with the session's variable source unshifted in front of the base
sources; `SessionVariableSource` reads the live session. Since one
`execute` resolves once, before any session mutation of that execute,
this is modelled by building the resolver from the session state current
at the start of the `execute`. -/

/-- Model of `RequestTiming` (optional fields beyond `total` elided to the two
the mock transport of the test-suite populates). -/
structure RTiming where
  total : Nat
  ttfb : Option Nat := none
  download : Option Nat := none
  deriving DecidableEq

/-- A parsed request, placeholder-bearing or resolved. -/
structure RadiusRequest where
  method : List Char
  url : List Char
  headers : List (List Char × List Char)
  body : Option (List Char)
  preScript : Option (List Char)
  postScript : Option (List Char)

/-- Model of `RadiusResponse`, together with the auxiliary `_scriptLogs` /
`_assertions` fields the runner may attach. -/
structure Response where
  status : Int
  statusText : List Char
  headers : List (List Char × List Char)
  body : List Char
  json : JValue
  timing : RTiming
  reqMethod : List Char
  reqUrl : List Char
  reqHeaders : List (List Char × List Char)
  scriptLogs : Option (List (List Char)) := none
  assertions : Option (List ExpectRes) := none

/-- Model of `RequestRunner.createErrorResponse`. -/
def createErrorResponse (msg method url : List Char) : Response :=
  { status := 0
    statusText := "Error".toList
    headers := []
    body := msg
    json := JValue.jnull
    timing := { total := 0 }
    reqMethod := method
    reqUrl := url
    reqHeaders := [] }

/-- Resolve an optional string field. -/
def resolveOpt (w : World) (R : ResolverM) (o : Option (List Char)) (st : WState) :
    Except RErr (Option (List Char) × WState) :=
  match o with
  | none => .ok (none, st)
  | some s =>
    match resolveChars w R s st with
    | .error e => .error e
    | .ok (v, st') => .ok (some v, st')

/-- Resolve the values of a headers object (keys are left as-is by
`resolveObject`, which walks `Object.entries`). -/
def resolveHeaders (w : World) (R : ResolverM) :
    List (List Char × List Char) → WState →
    Except RErr (List (List Char × List Char) × WState)
  | [], st => .ok ([], st)
  | (k, v) :: rest, st =>
    match resolveChars w R v st with
    | .error e => .error e
    | .ok (v', st') =>
      match resolveHeaders w R rest st' with
      | .error e => .error e
      | .ok (rest', st'') => .ok ((k, v') :: rest', st'')

/-- Model of `resolver.resolveObject(request)`: resolve every string leaf of the
request, reconstructing the same shape. -/
def resolveRequestM (w : World) (R : ResolverM) (req : RadiusRequest) (st : WState) :
    Except RErr (RadiusRequest × WState) := do
  let (m, st1) ← resolveChars w R req.method st
  let (u, st2) ← resolveChars w R req.url st1
  let (hs, st3) ← resolveHeaders w R req.headers st2
  let (b, st4) ← resolveOpt w R req.body st3
  let (pre, st5) ← resolveOpt w R req.preScript st4
  let (post, st6) ← resolveOpt w R req.postScript st5
  pure (⟨m, u, hs, b, pre, post⟩, st6)

/-- The runner state threaded across `execute` calls: the base variable
sources built by `buildVariableSources`, the optional session, and the
sandbox. -/
structure RunnerState where
  baseSources : List VariableSource
  session : Option SessionState
  sandbox : Sandbox

/-- Observable pipeline events of one `execute`, in program order. -/
inductive RunEvent where
  | resolvedReq
  | ranPre
  | mergedPreVars
  | calledTransport (req : RadiusRequest)
  | ranPost
  | warnedPostError (msg : List Char)
  | mergedPostVars

/-- The source list the resolver is (re)built from: the session source
(priority 500) unshifted in front of the base sources when a session is
set (`setSession`). -/
def currentSources (st : RunnerState) : List VariableSource :=
  match st.session with
  | some s => sessionSource s 500 :: st.baseSources
  | none => st.baseSources

/-- The resolver the runner uses: `new VariableResolver(sources,
{ strict: false })`. -/
def runnerResolver (st : RunnerState) : ResolverM :=
  mkResolver (currentSources st) { strict := some false }

/-- The prefix of the synthetic pre-script failure body. -/
def preErrHead : List Char := "Pre-script error: ".toList

/-- The prefix of the post-script warning line. -/
def postErrHead : List Char := "Post-script error: ".toList

/-- Steps 3–4 of `RequestRunner.execute`: invoke the transport on the
resolved request, then run the post-script if present — a failure only
emits a warning; its variables are merged into the session and its
logs/assertions are attached to the response when nonempty. -/
def executePost (transport : RadiusRequest → Response)
    (vmRun : List Char → Option Response → ScriptBehavior)
    (st : RunnerState) (resolved : RadiusRequest) (ev : List RunEvent) :
    Except RErr (Response × RunnerState × List RunEvent) :=
  let response := transport resolved
  let ev1 := ev ++ [RunEvent.calledTransport resolved]
  match resolved.postScript with
  | some ptext =>
    let r := st.sandbox.executeScript (vmRun ptext (some response))
    let postRes := r.1
    let ev2 := ev1 ++ [RunEvent.ranPost] ++
      (match postRes.errorMsg with
       | some m => if postRes.success then [] else [RunEvent.warnedPostError (postErrHead ++ m)]
       | none => [])
    let (sess1, ev3) :=
      match st.session with
      | some s =>
        if !postRes.vars.isEmpty then
          (some (sessionMerge s postRes.vars), ev2 ++ [RunEvent.mergedPostVars])
        else (some s, ev2)
      | none => (none, ev2)
    let resp1 :=
      if !postRes.logs.isEmpty then { response with scriptLogs := some postRes.logs }
      else response
    let resp2 :=
      if !postRes.assertions.isEmpty then { resp1 with assertions := some postRes.assertions }
      else resp1
    .ok (resp2, { baseSources := st.baseSources, session := sess1, sandbox := r.2 }, ev3)
  | none => .ok (response, st, ev1)

/-- Model of `RequestRunner.execute`: reset the sandbox, seed it with the session
variables, resolve the whole request, run the pre-script (a failure
synthesizes a status-0 error response and skips the transport), merge
pre-script variables into the session, invoke the transport, run the
post-script (a failure only warns), merge its variables, and attach the
auxiliary log/assertion fields. Returns the response, the updated runner
state, and the event trace. -/
def executeReq (w : World) (transport : RadiusRequest → Response)
    (vmRun : List Char → Option Response → ScriptBehavior)
    (st : RunnerState) (req : RadiusRequest) (wst : WState) :
    Except RErr (Response × RunnerState × List RunEvent) := do
  let sb0 := st.sandbox.resetContext
  let sb1 := match st.session with
             | some s => sb0.setVariables s
             | none => sb0
  let (resolved, _) ← resolveRequestM w (runnerResolver st) req wst
  let ev0 := [RunEvent.resolvedReq]
  -- pre-script phase
  let preStep :=
    match resolved.preScript with
    | some ptext =>
      let r := sb1.executeScript (vmRun ptext none)
      some r
    | none => none
  match preStep with
  | some (preRes, sb2) =>
    if preRes.success then do
      let (sess1, ev1) :=
        match st.session with
        | some s =>
          if !preRes.vars.isEmpty then
            (some (sessionMerge s preRes.vars),
             ev0 ++ [RunEvent.ranPre, RunEvent.mergedPreVars])
          else (some s, ev0 ++ [RunEvent.ranPre])
        | none => (none, ev0 ++ [RunEvent.ranPre])
      executePost transport vmRun
        { baseSources := st.baseSources, session := sess1, sandbox := sb2 }
        resolved ev1
    else
      .ok (createErrorResponse
             (preErrHead ++ (preRes.errorMsg.getD "Unknown error".toList))
             resolved.method resolved.url,
           { baseSources := st.baseSources, session := st.session, sandbox := sb2 },
           ev0 ++ [RunEvent.ranPre])
  | none =>
    executePost transport vmRun
      { baseSources := st.baseSources, session := st.session, sandbox := sb1 }
      resolved ev0


/-! ## Statement-side helpers and specification predicates -/

/-- A simple placeholder: two left braces, the name, two right braces. -/
def braced (n : List Char) : List Char :=
  lbrace :: lbrace :: (n ++ rbrace :: rbrace :: [])

/-- Well-formedness of a variable name `n` as it appears in a `braced`
placeholder: nonempty, brace-free, whitespace-trimmed, and not one of the
built-in `$`-names. -/
def nameOk (n : List Char) : Prop :=
  n ≠ [] ∧ rbrace ∉ n ∧ lbrace ∉ n ∧ trimChars n = n ∧ isKnownBuiltinName n = false

/-- A lowercase hexadecimal digit (from the spec's canonical v4 pattern). -/
def isHexDigit (c : Char) : Bool :=
  ('0' ≤ c && c ≤ '9') || ('a' ≤ c && c ≤ 'f')

/-- Character-by-character pattern match: `x` stands for one lowercase
hex digit, `y` for one of `8`, `9`, `a`, `b`, and any other pattern
character stands for itself; the lengths must agree. -/
def matchesPattern : List Char → List Char → Bool
  | [], [] => true
  | pc :: ps, c :: cs =>
    (if pc = 'x' then isHexDigit c
     else if pc = 'y' then c = '8' || c = '9' || c = 'a' || c = 'b'
     else decide (c = pc)) && matchesPattern ps cs
  | _, _ => false

/-- Modelled from the spec: the canonical v4 hyphenated hexadecimal
pattern — 8 hex digits, hyphen, 4 hex digits, hyphen, the literal version
nibble `4` then 3 hex digits, hyphen, a variant nibble in `8`–`b` then
3 hex digits, hyphen, 12 hex digits. Used only to state properties; the
generator under verification is `generateUuid`. -/
def uuidV4Chk (s : List Char) : Bool :=
  matchesPattern "xxxxxxxx-xxxx-4xxx-yxxx-xxxxxxxxxxxx".toList s

/-- The value of the last `setVariable(k, _)` call in a list of script
operations ("last write per name wins"). -/
def lastWrite : List ScriptOp → List Char → Option JValue
  | [], _ => none
  | .setVar k' v :: rest, k =>
    match lastWrite rest k with
    | some w => some w
    | none => if k = k' then some v else none
  | _ :: rest, k => lastWrite rest k

/-- The value attached to the last entry for `k` in an association list
(entries may repeat; later entries override). -/
def lastEntry : JMap → List Char → Option JValue
  | [], _ => none
  | e :: rest, k =>
    match lastEntry rest k with
    | some w => some w
    | none => if k = e.1 then some e.2 else none

/-- The sandbox as constructed by the `RequestRunner` constructor:
`new ScriptSandbox({ timeout: options.scriptTimeout })` — no environment
map is passed, so the `options.env ?? process.env` default applies. -/
def runnerSandbox (scriptTimeout : Option Nat) (processEnv : EnvMap) : Sandbox :=
  mkSandbox { timeout := scriptTimeout, env := none } processEnv

/-- The assertion outcomes recorded by a list of script operations, in
call order. -/
def opAsserts (ops : List ScriptOp) : List ExpectRes :=
  ops.filterMap
    (fun op =>
      match op with
      | .assertRec r => some r
      | _ => none)

/-! ## Concrete fixtures for the closed instances below -/

/-- A concrete effect world: `Math.random()` always 0, `Date.now()` the
call index. -/
def w0 : World := ⟨fun _ => 0, fun k => k, fun _ => []⟩

/-- Fresh call counters. -/
def wst0 : WState := ⟨0, 0, 0⟩

/-- An empty ambient process environment. -/
def penv0 : EnvMap := fun _ => none

/-- A concrete 200 response used as a transport result. -/
def resp200 : Response :=
  { status := 200
    statusText := "OK".toList
    headers := [("content-type".toList, "application/json".toList)]
    body := "B".toList
    json := JValue.jobj
    timing := { total := 150, ttfb := some 100, download := some 50 }
    reqMethod := "GET".toList
    reqUrl := "u".toList
    reqHeaders := [] }

/-- Two distinct concrete assertion outcomes. -/
def exOne : ExpectRes := { passed := true, message := "one".toList }

/-- Second concrete outcome. -/
def exTwo : ExpectRes := { passed := false, message := "two".toList }

/-- A vm oracle: script "P" records `exOne`, script "Q" records `exTwo`,
both succeed. -/
def vmPQ : List Char → Option Response → ScriptBehavior := fun txt _ =>
  if txt = "P".toList then ⟨[ScriptOp.assertRec exOne], none⟩
  else if txt = "Q".toList then ⟨[ScriptOp.assertRec exTwo], none⟩
  else ⟨[], none⟩

/-- A concrete request with pre-script "P" and post-script "Q" and no
placeholders. -/
def reqPQ : RadiusRequest :=
  ⟨"GET".toList, "u".toList, [], none, some "P".toList, some "Q".toList⟩

/-- A runner state with an empty session, no base sources and a default
sandbox. -/
def rsEmpty : RunnerState := ⟨[], some [], mkSandbox ⟨none, none⟩ penv0⟩

/-- A priority-100 source defining `a := "low"`. -/
def srcLow : VariableSource :=
  ⟨"Low".toList, 100, fun k => if k = ['a'] then some "low".toList else none⟩

/-- A priority-200 source defining `a := "high"`. -/
def srcHigh : VariableSource :=
  ⟨"High".toList, 200, fun k => if k = ['a'] then some "high".toList else none⟩

/-- A chain `a → b → c → "L"` of indirections. -/
def chainGet : List Char → Option (List Char) := fun k =>
  if k = ['a'] then some (braced ['b'])
  else if k = ['b'] then some (braced ['c'])
  else if k = ['c'] then some "L".toList
  else none

/-- The chain source. -/
def srcChain : VariableSource := ⟨"Chain".toList, 300, chainGet⟩

/-- A cycle `a → b → a`. -/
def cycleGet : List Char → Option (List Char) := fun k =>
  if k = ['a'] then some (braced ['b'])
  else if k = ['b'] then some (braced ['a'])
  else none

/-- The cycle source. -/
def srcCycle : VariableSource := ⟨"Cycle".toList, 300, cycleGet⟩

/-- A priority-200 source whose value for `a` contains the `$$`
replacement-string escape. -/
def srcDollar : VariableSource :=
  ⟨"Dollar".toList, 200, fun k => if k = ['a'] then some "pa$$word".toList else none⟩

/-- A chain `a → b → c → "$&"` whose terminal value is the
matched-substring replacement escape. -/
def chainDollarGet : List Char → Option (List Char) := fun k =>
  if k = ['a'] then some (braced ['b'])
  else if k = ['b'] then some (braced ['c'])
  else if k = ['c'] then some "$&".toList
  else none

/-- The dollar-terminal chain source. -/
def srcChainDollar : VariableSource := ⟨"ChainD".toList, 300, chainDollarGet⟩

/-- A vm oracle whose script "P" throws "boom" and whose other scripts
succeed doing nothing. -/
def vmFail : List Char → Option Response → ScriptBehavior := fun txt _ =>
  if txt = "P".toList then ⟨[], some "boom".toList⟩ else ⟨[], none⟩

/-- A vm oracle: "P" sets `requestId := "RID"`, "Q" sets `token := "T1"`;
both succeed. -/
def vmSetters : List Char → Option Response → ScriptBehavior := fun txt _ =>
  if txt = "P".toList then ⟨[ScriptOp.setVar "requestId".toList (JValue.jstr "RID".toList)], none⟩
  else if txt = "Q".toList then ⟨[ScriptOp.setVar "token".toList (JValue.jstr "T1".toList)], none⟩
  else ⟨[], none⟩

/-- A transport oracle returning the fixed 200 response. -/
def tr200 : RadiusRequest → Response := fun _ => resp200

/-- A concrete request with pre-script "P" and no post-script. -/
def reqPreOnly : RadiusRequest :=
  ⟨"GET".toList, "u".toList, [], none, some "P".toList, none⟩

/-- A vm oracle whose script "Q" throws "qboom" and whose other scripts
succeed doing nothing. -/
def vmFailQ : List Char → Option Response → ScriptBehavior := fun txt _ =>
  if txt = "Q".toList then ⟨[], some "qboom".toList⟩ else ⟨[], none⟩


/-! ## Lemmas: placeholder scanning -/

theorem matchAt_length {t f g a : List Char} (h : matchAt t = some (f, g, a)) :
    a.length < t.length := by
  match t with
  | [] => simp [matchAt] at h
  | [c] => simp [matchAt] at h
  | c1 :: c2 :: rest =>
    simp only [matchAt] at h
    split at h
    · split at h
      · exact absurd h (by simp)
      · split at h
        next r1 r2 after heq =>
          split at h
          · simp only [Option.some.injEq, Prod.mk.injEq] at h
            obtain ⟨-, -, ha⟩ := h
            subst ha
            have h1 : (rest.dropWhile (fun c => c ≠ rbrace)).length ≤ rest.length :=
              (List.dropWhile_suffix _).sublist.length_le
            rw [heq] at h1
            simp only [List.length_cons, List.length_cons] at h1 ⊢
            omega
          · exact absurd h (by simp)
        next => exact absurd h (by simp)
    · exact absurd h (by simp)

theorem scanAux_eq (f : Nat) : ∀ (t : List Char), t.length ≤ f → scanAux f t = scanAux t.length t := by
  induction f using Nat.strong_induction_on with
  | _ f ih =>
    intro t ht
    match f, t with
    | 0, t =>
      have : t = [] := List.eq_nil_of_length_eq_zero (Nat.le_zero.mp ht)
      subst this; rfl
    | fu + 1, [] => rfl
    | fu + 1, c :: rest =>
      simp only [List.length_cons] at ht
      have hrest : rest.length ≤ fu := Nat.lt_succ_iff.mp (Nat.lt_of_lt_of_le (Nat.lt_succ_self _) ht)
      show scanAux (fu + 1) (c :: rest) = scanAux (rest.length + 1) (c :: rest)
      rw [scanAux, scanAux]
      cases h : matchAt (c :: rest) with
      | some v =>
        obtain ⟨fm, g, a⟩ := v
        have hlen : a.length ≤ rest.length := by
          have := matchAt_length h
          simp only [List.length_cons] at this
          omega
        dsimp only
        rw [ih fu (Nat.lt_succ_self _) a (le_trans hlen hrest),
            ih rest.length (Nat.lt_succ_of_le hrest) a hlen]
      | none =>
        dsimp only
        rw [ih fu (Nat.lt_succ_self _) rest hrest,
            ih rest.length (Nat.lt_succ_of_le hrest) rest (le_refl _)]

theorem scanMatches_cons (c : Char) (rest : List Char) :
    scanMatches (c :: rest) =
      match matchAt (c :: rest) with
      | some x => (x.1, x.2.1) :: scanMatches x.2.2
      | none => scanMatches rest := by
  show scanAux (rest.length + 1) (c :: rest) = _
  rw [scanAux]
  cases h : matchAt (c :: rest) with
  | some v =>
    obtain ⟨fm, g, a⟩ := v
    have hlen : a.length ≤ rest.length := by
      have := matchAt_length h
      simp only [List.length_cons] at this
      omega
    simpa using congrArg (fun l => (fm, g) :: l) (scanAux_eq rest.length a hlen)
  | none => exact scanAux_eq rest.length rest (le_refl _)

theorem matchAt_none_of_head {c : Char} (hc : c ≠ lbrace) (rest : List Char) :
    matchAt (c :: rest) = none := by
  cases rest with
  | nil => rfl
  | cons c2 rest' => simp [matchAt, hc]

theorem scanMatches_append_of_nolb {p : List Char} (hp : ∀ c ∈ p, c ≠ lbrace) (t : List Char) :
    scanMatches (p ++ t) = scanMatches t := by
  induction p with
  | nil => rfl
  | cons c p' ih =>
    have hc : c ≠ lbrace := hp c (List.mem_cons_self _ _)
    have hp' : ∀ x ∈ p', x ≠ lbrace := fun x hx => hp x (List.mem_cons_of_mem _ hx)
    rw [List.cons_append, scanMatches_cons, matchAt_none_of_head hc, ih hp']

theorem scanMatches_of_nolb {t : List Char} (ht : ∀ c ∈ t, c ≠ lbrace) :
    scanMatches t = [] := by
  have := scanMatches_append_of_nolb ht ([] : List Char)
  simpa using this

theorem takeWhile_append_all {p : Char → Bool} {xs : List Char}
    (h : ∀ c ∈ xs, p c = true) (ys : List Char) :
    (xs ++ ys).takeWhile p = xs ++ ys.takeWhile p := by
  induction xs with
  | nil => rfl
  | cons c xs' ih =>
    have hc := h c (List.mem_cons_self _ _)
    simp only [List.cons_append, List.takeWhile_cons, hc, if_true]
    rw [ih (fun x hx => h x (List.mem_cons_of_mem _ hx))]

theorem dropWhile_append_all {p : Char → Bool} {xs : List Char}
    (h : ∀ c ∈ xs, p c = true) (ys : List Char) :
    (xs ++ ys).dropWhile p = ys.dropWhile p := by
  induction xs with
  | nil => rfl
  | cons c xs' ih =>
    have hc := h c (List.mem_cons_self _ _)
    simp only [List.cons_append, List.dropWhile_cons, hc, if_true]
    exact ih (fun x hx => h x (List.mem_cons_of_mem _ hx))

theorem braced_append (n s : List Char) :
    braced n ++ s = lbrace :: lbrace :: (n ++ rbrace :: rbrace :: s) := by
  simp [braced]

theorem matchAt_braced {n : List Char} (hn : n ≠ []) (hnr : rbrace ∉ n) (s : List Char) :
    matchAt (braced n ++ s) = some (braced n, n, s) := by
  rw [braced_append]
  have hall : ∀ c ∈ n, (fun c => decide (c ≠ rbrace)) c = true := by
    intro c hc
    simp only [decide_eq_true_eq]
    exact fun hcr => hnr (hcr ▸ hc)
  have htk : (n ++ rbrace :: rbrace :: s).takeWhile (fun c => c ≠ rbrace) = n := by
    rw [takeWhile_append_all hall]
    simp [List.takeWhile_cons]
  have hdr : (n ++ rbrace :: rbrace :: s).dropWhile (fun c => c ≠ rbrace) = rbrace :: rbrace :: s := by
    rw [dropWhile_append_all hall]
    simp [List.dropWhile_cons]
  simp only [matchAt, htk, hdr]
  simp [hn, braced]

theorem scanMatches_single {p n s : List Char} (hp : ∀ c ∈ p, c ≠ lbrace)
    (hn : n ≠ []) (hnr : rbrace ∉ n) (hs : ∀ c ∈ s, c ≠ lbrace) :
    scanMatches (p ++ braced n ++ s) = [(braced n, n)] := by
  rw [List.append_assoc, scanMatches_append_of_nolb hp]
  have hform := braced_append n s
  rw [hform, scanMatches_cons]
  have hm : matchAt (lbrace :: lbrace :: (n ++ rbrace :: rbrace :: s)) = some (braced n, n, s) := by
    rw [← hform]; exact matchAt_braced hn hnr s
  rw [hm]
  simp [scanMatches_of_nolb hs]

/-! ## Lemmas: first-occurrence replacement -/

theorem getSubstitution_nodollar (m b a : List Char) :
    ∀ (l : List Char), '$' ∉ l → getSubstitution m b a l = l := by
  intro l
  induction l with
  | nil => intro _; rfl
  | cons c rest ih =>
    intro h
    have hc : c ≠ '$' := fun he => h (he ▸ List.mem_cons_self _ _)
    rw [getSubstitution.eq_def]
    dsimp only
    rw [if_neg hc, ih (fun hm => h (List.mem_cons_of_mem _ hm))]

theorem replaceFirstAux_cons_ne {pat : List Char} {c : Char} {pt : List Char}
    (hpat : pat = lbrace :: pt) (hc : c ≠ lbrace) (repl b rest : List Char) :
    replaceFirstAux pat repl b (c :: rest) =
      c :: replaceFirstAux pat repl (b ++ [c]) rest := by
  subst hpat
  rw [replaceFirstAux]
  have : (lbrace :: pt).isPrefixOf (c :: rest) = false := by
    simp [List.isPrefixOf, Ne.symm hc]
  simp [this]

theorem replaceFirstAux_exact {pat : List Char} (hne : pat ≠ []) (repl b s : List Char) :
    replaceFirstAux pat repl b (pat ++ s) = getSubstitution pat b s repl ++ s := by
  match pat with
  | [] => exact absurd rfl hne
  | c :: pt =>
    show replaceFirstAux (c :: pt) repl b (c :: (pt ++ s)) =
      getSubstitution (c :: pt) b s repl ++ s
    rw [replaceFirstAux]
    have hpre : (c :: pt).isPrefixOf (c :: (pt ++ s)) = true := by
      rw [ List.isPrefixOf_iff_prefix]
      exact ⟨s, by simp⟩
    simp only [hpre, if_true]
    have hdrop : List.drop (c :: pt).length (c :: (pt ++ s)) = s := by
      have h2 := List.drop_left (c :: pt) s
      simp only [List.cons_append] at h2
      exact h2
    rw [hdrop]

theorem replaceFirstAux_mid {pat v s : List Char} {pt : List Char}
    (hpat : pat = lbrace :: pt) :
    ∀ (p : List Char), (∀ c ∈ p, c ≠ lbrace) → ∀ (b : List Char),
    replaceFirstAux pat v b (p ++ pat ++ s) =
      p ++ getSubstitution pat (b ++ p) s v ++ s := by
  intro p
  induction p with
  | nil =>
    intro _ b
    simp only [List.nil_append, List.append_nil]
    exact replaceFirstAux_exact (by rw [hpat]; exact List.cons_ne_nil _ _) v b s
  | cons c p' ih =>
    intro hp b
    have hc : c ≠ lbrace := hp c (List.mem_cons_self _ _)
    rw [List.cons_append, List.cons_append, replaceFirstAux_cons_ne hpat hc,
        ih (fun x hx => hp x (List.mem_cons_of_mem _ hx)) (b ++ [c])]
    simp

theorem replaceFirst_mid {p pat v s : List Char} (hp : ∀ c ∈ p, c ≠ lbrace)
    {pt : List Char} (hpat : pat = lbrace :: pt) :
    replaceFirst pat v (p ++ pat ++ s) = p ++ getSubstitution pat p s v ++ s := by
  have h := replaceFirstAux_mid (v := v) (s := s) hpat p hp []
  simpa [replaceFirst] using h

theorem braced_eq_cons (n : List Char) : braced n = lbrace :: (lbrace :: (n ++ rbrace :: rbrace :: [])) := rfl

theorem replaceFirst_braced {p n v s : List Char} (hp : ∀ c ∈ p, c ≠ lbrace) :
    replaceFirst (braced n) v (p ++ braced n ++ s) =
      p ++ getSubstitution (braced n) p s v ++ s :=
  replaceFirst_mid hp (braced_eq_cons n)

theorem replaceFirst_braced_nd {p n v s : List Char} (hp : ∀ c ∈ p, c ≠ lbrace)
    (hv : '$' ∉ v) :
    replaceFirst (braced n) v (p ++ braced n ++ s) = p ++ v ++ s := by
  rw [replaceFirst_braced hp, getSubstitution_nodollar _ _ _ v hv]


/-! ## Lemmas: resolver steps -/

theorem digitChar_bounds (d : Nat) : '0' ≤ digitChar d ∧ digitChar d ≤ '9' := by
  unfold digitChar
  have h10 : d % 10 = 0 ∨ d % 10 = 1 ∨ d % 10 = 2 ∨ d % 10 = 3 ∨ d % 10 = 4 ∨
      d % 10 = 5 ∨ d % 10 = 6 ∨ d % 10 = 7 ∨ d % 10 = 8 ∨ d % 10 = 9 := by omega
  rcases h10 with h|h|h|h|h|h|h|h|h|h <;> rw [h] <;> exact ⟨by decide, by decide⟩

theorem builtinStep_none {w : World} {st : WState} {n : List Char}
    (h : isKnownBuiltinName n = false) :
    (match builtinGroup n with
     | some g => resolveBuiltin w st g
     | none => (none, st)) = ((none : Option (List Char)), st) := by
  cases hg : builtinGroup n with
  | none => rfl
  | some g =>
    rw [isKnownBuiltinName, hg] at h
    simp only [Bool.or_eq_false_iff, decide_eq_false_iff_not] at h
    obtain ⟨⟨⟨h1, h2⟩, h3⟩, h4⟩ := h
    simp only [resolveBuiltin]
    rw [if_neg h1, if_neg h2, if_neg h3, if_neg h4]


theorem natToCharsAux_digits (fuel : Nat) :
    ∀ (n : Nat) (acc : List Char), (∀ c ∈ acc, '0' ≤ c ∧ c ≤ '9') →
    ∀ c ∈ natToCharsAux fuel n acc, '0' ≤ c ∧ c ≤ '9' := by
  induction fuel with
  | zero => intro n acc hacc c hc; exact hacc c hc
  | succ fu ih =>
    intro n acc hacc c hc
    rw [natToCharsAux] at hc
    split at hc
    · rcases List.mem_cons.mp hc with h | h
      · subst h; exact digitChar_bounds n
      · exact hacc c h
    · refine ih (n / 10) (digitChar n :: acc) ?_ c hc
      intro x hx
      rcases List.mem_cons.mp hx with h | h
      · subst h; exact digitChar_bounds n
      · exact hacc x h

theorem natToChars_digits {n : Nat} : ∀ c ∈ natToChars n, '0' ≤ c ∧ c ≤ '9' :=
  natToCharsAux_digits (n + 1) n [] (by simp)

theorem natToChars_nolb {n : Nat} : ∀ c ∈ natToChars n, c ≠ lbrace := by
  intro c hc
  have := natToChars_digits c hc
  intro h
  subst h
  exact absurd this (by decide)

theorem goMatches_nil {w : World} {R : ResolverM} {recur} {result acc st} :
    goMatches w R recur [] result acc st = .ok (⟨result, acc⟩, st) := rfl

/-- When no match resolves (no built-in hit, no source defines the name),
the loop leaves `result` untouched and appends each trimmed name to the
unresolved accumulator, consuming no effects. -/
theorem goMatches_unresolved {w : World} {R : ResolverM} {recur} :
    ∀ (ms : List (List Char × List Char)) (result : List Char)
      (acc : List (List Char)) (st : WState),
    (∀ m ∈ ms, isKnownBuiltinName (trimChars m.2) = false ∧
       lookupSources R.sources (stripEnv (trimChars m.2)) = none) →
    goMatches w R recur ms result acc st =
      .ok (⟨result, acc ++ ms.map (fun m => trimChars m.2)⟩, st) := by
  intro ms
  induction ms with
  | nil => intro result acc st _; simp [goMatches_nil]
  | cons m rest ih =>
    intro result acc st hall
    obtain ⟨full, grp⟩ := m
    obtain ⟨hb, hl⟩ := hall (full, grp) (List.mem_cons_self _ _)
    rw [goMatches]
    rw [builtinStep_none hb]
    dsimp only
    rw [hl]
    rw [ih (result) (acc ++ [trimChars grp]) st
        (fun x hx => hall x (List.mem_cons_of_mem _ hx))]
    simp


/-- Resolution of a template `p ++ \x7b\x7bn\x7d\x7d ++ s` with
brace-free `p` and `s` and a well-formed, non-built-in name `n` that some
source defines: the placeholder is substituted by the looked-up value
passed through the replacement-string substitution (resolving the value
recursively first when it itself contains placeholders). -/
theorem resolveGo_braced {w : World} {R : ResolverM} {u : WState} {f : Nat}
    {p n s v : List Char}
    (hp : ∀ c ∈ p, c ≠ lbrace) (hs : ∀ c ∈ s, c ≠ lbrace) (hok : nameOk n)
    (hlook : lookupSources R.sources (stripEnv n) = some v) :
    (hasVariables v = false →
       resolveGo w R (f + 1) (p ++ braced n ++ s) u =
         .ok (⟨p ++ getSubstitution (braced n) p s v ++ s, []⟩, u)) ∧
    (∀ res u2, hasVariables v = true → resolveGo w R f v u = .ok (res, u2) →
       resolveGo w R (f + 1) (p ++ braced n ++ s) u =
         .ok (⟨p ++ getSubstitution (braced n) p s res.value ++ s, res.unresolved⟩, u2)) ∧
    (∀ e, hasVariables v = true → resolveGo w R f v u = .error e →
       resolveGo w R (f + 1) (p ++ braced n ++ s) u = .error e) := by
  obtain ⟨hne, hnr, hnl, htrim, hnb⟩ := hok
  have hscan : scanMatches (p ++ braced n ++ s) = [(braced n, n)] :=
    scanMatches_single hp hne hnr hs
  have hrepl : ∀ x : List Char, replaceFirst (braced n) x (p ++ braced n ++ s) =
      p ++ getSubstitution (braced n) p s x ++ s :=
    fun x => replaceFirst_braced hp
  refine ⟨?_, ?_, ?_⟩
  · intro hv
    rw [resolveGo, hscan, goMatches, htrim, builtinStep_none hnb]
    dsimp only
    rw [hlook]
    dsimp only
    rw [if_neg (by rw [hv]; exact Bool.false_ne_true)]
    rw [hrepl v, goMatches_nil]
  · intro res u2 hv hrec
    rw [resolveGo, hscan, goMatches, htrim, builtinStep_none hnb]
    dsimp only
    rw [hlook]
    dsimp only
    rw [if_pos hv, hrec]
    dsimp only
    rw [hrepl res.value, goMatches_nil]
    simp
  · intro e hv hrec
    rw [resolveGo, hscan, goMatches, htrim, builtinStep_none hnb]
    dsimp only
    rw [hlook]
    dsimp only
    rw [if_pos hv, hrec]

/-- Resolution of a single built-in placeholder: the generator's value is
substituted without consulting any source (the four generators emit no
dollar sign, so the replacement is verbatim). -/
theorem resolveGo_builtin_single {w : World} {R : ResolverM} {u u' : WState}
    {f : Nat} {n v : List Char}
    (hn : n ≠ []) (hnr : rbrace ∉ n) (htrim : trimChars n = n)
    (hdv : '$' ∉ v)
    (hb : (match builtinGroup n with
           | some g => resolveBuiltin w u g
           | none => ((none : Option (List Char)), u)) = (some v, u')) :
    resolveGo w R (f + 1) (braced n) u = .ok (⟨v, []⟩, u') := by
  have hscan : scanMatches (braced n) = [(braced n, n)] := by
    have := scanMatches_single (p := []) (s := []) (by simp) hn hnr (by simp)
    simpa using this
  have hrepl : replaceFirst (braced n) v (braced n) = v := by
    have := replaceFirst_braced_nd (p := []) (n := n) (v := v) (s := []) (by simp) hdv
    simpa using this
  rw [resolveGo, hscan, goMatches, htrim, hb]
  dsimp only
  rw [hrepl, goMatches_nil]


/-! ## Lemmas: stable priority sort and lookup -/

theorem lookupSources_decomp {k v : List Char} {wsrc : VariableSource}
    (hw : wsrc.get k = some v) :
    ∀ (A B : List VariableSource), (∀ u ∈ A, u.get k = none) →
    lookupSources (A ++ wsrc :: B) k = some v := by
  intro A
  induction A with
  | nil => intro B _; rw [List.nil_append, lookupSources, hw]
  | cons u A' ih =>
    intro B hA
    rw [List.cons_append, lookupSources, hA u (List.mem_cons_self _ _)]
    exact ih B (fun x hx => hA x (List.mem_cons_of_mem _ hx))

/-- Inserting an element that is either non-defining or strictly lower in
priority than `wsrc` (and than everything in front of `wsrc`) preserves
the shape "all sources in front of `wsrc` are non-defining". -/
theorem orderedInsert_pres {k : List Char} (x wsrc : VariableSource) :
    ∀ (A B : List VariableSource),
    (x.get k = none ∨ ((∀ u ∈ A, x.priority < u.priority) ∧ x.priority < wsrc.priority)) →
    (∀ u ∈ A, u.get k = none) →
    ∃ A' B', List.orderedInsert srcLE x (A ++ wsrc :: B) = A' ++ wsrc :: B' ∧
      ∀ u ∈ A', u.get k = none := by
  intro A
  induction A with
  | nil =>
    intro B hx hA
    rw [List.nil_append, List.orderedInsert]
    by_cases hle : srcLE x wsrc
    · refine ⟨[x], B, by rw [if_pos hle]; rfl, ?_⟩
      intro u hu
      rw [List.mem_singleton] at hu
      subst hu
      rcases hx with h | h
      · exact h
      · exact absurd h.2 (not_lt.mpr hle)
    · exact ⟨[], List.orderedInsert srcLE x B, by rw [if_neg hle]; rfl, by simp⟩
  | cons b A' ih =>
    intro B hx hA
    rw [List.cons_append, List.orderedInsert]
    by_cases hle : srcLE x b
    · refine ⟨x :: b :: A', B, by rw [if_pos hle]; rfl, ?_⟩
      intro u hu
      rcases List.mem_cons.mp hu with h | h
      · subst h
        rcases hx with h' | h'
        · exact h'
        · exact absurd (h'.1 b (List.mem_cons_self _ _)) (not_lt.mpr hle)
      · exact hA u h
    · have hx' : x.get k = none ∨
          ((∀ u ∈ A', x.priority < u.priority) ∧ x.priority < wsrc.priority) := by
        rcases hx with h | h
        · exact Or.inl h
        · exact Or.inr ⟨fun u hu => h.1 u (List.mem_cons_of_mem _ hu), h.2⟩
      obtain ⟨A2, B2, heq, hall⟩ := ih B hx' (fun u hu => hA u (List.mem_cons_of_mem _ hu))
      refine ⟨b :: A2, B2, ?_, ?_⟩
      · rw [if_neg hle, heq]; rfl
      · intro u hu
        rcases List.mem_cons.mp hu with h | h
        · rw [h]; exact hA b (List.mem_cons_self _ _)
        · exact hall u h

/-- The stable descending sort places `wsrc` in front of every other
source defining `k`, provided every defining source supplied before it
has strictly lower priority and every defining source supplied after it
has lower-or-equal priority. -/
theorem sortSources_decomp {k v : List Char} :
    ∀ (l1 : List VariableSource) (l2 : List VariableSource) (wsrc : VariableSource),
    wsrc.get k = some v →
    (∀ u ∈ l1, (u.get k).isSome → u.priority < wsrc.priority) →
    (∀ u ∈ l2, (u.get k).isSome → u.priority ≤ wsrc.priority) →
    ∃ A B, sortSources (l1 ++ wsrc :: l2) = A ++ wsrc :: B ∧ ∀ u ∈ A, u.get k = none := by
  intro l1
  induction l1 with
  | nil =>
    intro l2 wsrc hw h1 h2
    rw [List.nil_append]
    show ∃ A B, List.insertionSort srcLE (wsrc :: l2) = A ++ wsrc :: B ∧ _
    rw [List.insertionSort, List.orderedInsert_eq_take_drop]
    refine ⟨_, _, rfl, ?_⟩
    intro u hu
    have humem : u ∈ List.insertionSort srcLE l2 :=
      ( List.takeWhile_prefix _).sublist.subset hu
    have hul2 : u ∈ l2 := (List.perm_insertionSort srcLE l2).subset humem
    have hpred := List.mem_takeWhile_imp hu
    rw [decide_eq_true_eq] at hpred
    cases hdef : u.get k with
    | none => rfl
    | some uv =>
      exfalso
      have := h2 u hul2 (by rw [hdef]; rfl)
      exact hpred this
  | cons a l1' ih =>
    intro l2 wsrc hw h1 h2
    rw [List.cons_append]
    show ∃ A B, List.insertionSort srcLE (a :: (l1' ++ wsrc :: l2)) = A ++ wsrc :: B ∧ _
    rw [List.insertionSort]
    obtain ⟨A, B, heq, hall⟩ :=
      ih l2 wsrc hw (fun u hu hd => h1 u (List.mem_cons_of_mem _ hu) hd) h2
    have hsorted : List.Sorted srcLE (A ++ wsrc :: B) := by
      rw [show (A ++ wsrc :: B) = List.insertionSort srcLE (l1' ++ wsrc :: l2) from heq.symm]
      exact List.sorted_insertionSort srcLE _
    have hx : a.get k = none ∨
        ((∀ u ∈ A, a.priority < u.priority) ∧ a.priority < wsrc.priority) := by
      cases hdef : a.get k with
      | none => exact Or.inl rfl
      | some av =>
        refine Or.inr ⟨?_, h1 a (List.mem_cons_self _ _) (by rw [hdef]; rfl)⟩
        intro u hu
        have hlt : a.priority < wsrc.priority :=
          h1 a (List.mem_cons_self _ _) (by rw [hdef]; rfl)
        have huw : srcLE u wsrc := by
          have := (List.pairwise_append.mp hsorted).2.2
          exact this u hu wsrc (List.mem_cons_self _ _)
        have : wsrc.priority ≤ u.priority := huw
        omega
    rw [show List.insertionSort srcLE (l1' ++ wsrc :: l2) = A ++ wsrc :: B from heq]
    exact orderedInsert_pres a wsrc A B hx hall

/-- The priority-selection property of the sorted lookup. -/
theorem lookupSources_priority {k v : List Char}
    (l1 l2 : List VariableSource) (wsrc : VariableSource)
    (hw : wsrc.get k = some v)
    (h1 : ∀ u ∈ l1, (u.get k).isSome → u.priority < wsrc.priority)
    (h2 : ∀ u ∈ l2, (u.get k).isSome → u.priority ≤ wsrc.priority) :
    lookupSources (sortSources (l1 ++ wsrc :: l2)) k = some v := by
  obtain ⟨A, B, heq, hall⟩ := sortSources_decomp l1 l2 wsrc hw h1 h2
  rw [heq]
  exact lookupSources_decomp hw A B hall


/-! ## Claim C1 -/

/-- Counterexample for C1: the claim says the substituted value is the one
returned by the highest-priority defining source, for every such value.
`String.prototype.replace` applies the `GetSubstitution` escapes to the
replacement string, so a source value containing `$$` is not inserted
verbatim: with a single source defining `a := "pa$$word"`, resolving the
placeholder for `a` yields "pa$word", which differs from the value the
source returned. -/
theorem c1_counterexample :
    resolveChars w0 (mkResolver [srcDollar] ⟨some true, none⟩) (braced ['a']) wst0 =
      .ok ("pa$word".toList, wst0) ∧
    "pa$word".toList ≠ "pa$$word".toList := ⟨rfl, by decide⟩

/-- C1 (amended): for a `resolve` call on a template containing a
placeholder for a non-built-in name that at least one configured source
defines, the winning value is the one returned by the source with the
strictly highest priority among the defining sources, regardless of the
order the caller supplied the sources in; on a priority tie among
defining sources the one supplied earliest wins. The winner `wsrc` is
characterised by its position: every defining source supplied before it
has strictly lower priority, every defining source supplied after it has
lower-or-equal priority. The substituted text is the winning value passed
through the replacement-string substitution (`$`-escapes interpreted
against the matched placeholder), which is the value itself whenever the
value contains no dollar sign. -/
theorem c1_highest_priority_source_wins
    (w : World) (st : WState) (opts : ResolverOptions)
    (l1 l2 : List VariableSource) (wsrc : VariableSource)
    (p n s v : List Char)
    (hp : ∀ c ∈ p, c ≠ lbrace) (hs : ∀ c ∈ s, c ≠ lbrace) (hok : nameOk n)
    (hw : wsrc.get (stripEnv n) = some v)
    (h1 : ∀ u ∈ l1, (u.get (stripEnv n)).isSome → u.priority < wsrc.priority)
    (h2 : ∀ u ∈ l2, (u.get (stripEnv n)).isSome → u.priority ≤ wsrc.priority)
    (hv : hasVariables v = false) :
    resolveChars w (mkResolver (l1 ++ wsrc :: l2) opts) (p ++ braced n ++ s) st =
      .ok (p ++ getSubstitution (braced n) p s v ++ s, st) ∧
    ('$' ∉ v → getSubstitution (braced n) p s v = v) := by
  refine ⟨?_, fun hd => getSubstitution_nodollar _ _ _ v hd⟩
  have hlook : lookupSources (mkResolver (l1 ++ wsrc :: l2) opts).sources (stripEnv n)
      = some v := by
    show lookupSources (sortSources (l1 ++ wsrc :: l2)) (stripEnv n) = some v
    exact lookupSources_priority l1 l2 wsrc hw h1 h2
  have h := (resolveGo_braced (w := w) (u := st)
    (f := (mkResolver (l1 ++ wsrc :: l2) opts).maxDepth) hp hs hok hlook).1 hv
  rw [resolveChars, resolveWithInfo, h]
  simp

/-- Witness for C1 (amended): sources supplied in the order low-priority
first; the priority-200 source still wins, and its dollar-free value is
inserted verbatim. -/
theorem c1_highest_priority_source_wins_witness :
    resolveChars w0 (mkResolver [srcLow, srcHigh] ⟨some true, none⟩) (braced ['a']) wst0 =
      .ok ("high".toList, wst0) := by
  have h := c1_highest_priority_source_wins w0 wst0 ⟨some true, none⟩
    [srcLow] [] srcHigh [] ['a'] [] "high".toList
    (by simp) (by simp) (by constructor <;> decide)
    (by decide)
    (by
      intro u hu hdef
      rw [List.mem_singleton] at hu
      subst hu
      decide)
    (by simp)
    (by decide)
  have h1 := h.1
  rw [h.2 (by decide)] at h1
  simpa using h1


/-! ## Claim C2 -/

/-- Counterexample for C2: the claim says the aggregated strict-mode error
"lists every unresolved placeholder name once". On the template
`\x7b\x7ba\x7d\x7dx\x7b\x7ba\x7d\x7d` with no sources, the code pushes
one entry per unresolved occurrence, so the error lists the name `a`
twice: the message is "Unresolved variables: a, a", not
"Unresolved variables: a". -/
theorem c2_counterexample :
    resolveChars w0 (mkResolver [] ⟨some true, none⟩)
        (braced ['a'] ++ 'x' :: braced ['a']) wst0 =
      .error (.unresolvedVars [['a'], ['a']]) ∧
    errMessage (.unresolvedVars [['a'], ['a']]) = "Unresolved variables: a, a".toList ∧
    "Unresolved variables: a, a".toList ≠ "Unresolved variables: a".toList := by
  exact ⟨rfl, rfl, by decide⟩

/-- C2 (amended): when no placeholder of the template hits the built-in
table and no source defines any of the (trimmed, `env.`-stripped) names,
`resolveWithInfo` returns the template unchanged together with the list
of unresolved occurrences in first-seen order (one entry per occurrence,
not deduplicated); strict mode then throws the single aggregated error
naming those occurrences comma-joined, and lenient mode returns the
template with every original placeholder left in place verbatim. -/
theorem c2_unresolved_handling
    (w : World) (st : WState) (srcs : List VariableSource) (maxD : Option Nat)
    (t : List Char)
    (hall : ∀ m ∈ scanMatches t, isKnownBuiltinName (trimChars m.2) = false ∧
        lookupSources (sortSources srcs) (stripEnv (trimChars m.2)) = none) :
    (∀ b : Bool, resolveWithInfo w (mkResolver srcs ⟨some b, maxD⟩) t st =
      .ok (⟨t, (scanMatches t).map (fun m => trimChars m.2)⟩, st)) ∧
    ((scanMatches t).map (fun m => trimChars m.2) ≠ [] →
      resolveChars w (mkResolver srcs ⟨some true, maxD⟩) t st =
        .error (.unresolvedVars ((scanMatches t).map (fun m => trimChars m.2)))) ∧
    resolveChars w (mkResolver srcs ⟨some false, maxD⟩) t st = .ok (t, st) ∧
    errMessage (.unresolvedVars ((scanMatches t).map (fun m => trimChars m.2))) =
      "Unresolved variables: ".toList ++
        joinComma ((scanMatches t).map (fun m => trimChars m.2)) := by
  have hmain : ∀ b : Bool, resolveWithInfo w (mkResolver srcs ⟨some b, maxD⟩) t st =
      .ok (⟨t, (scanMatches t).map (fun m => trimChars m.2)⟩, st) := by
    intro b
    rw [resolveWithInfo, resolveGo]
    rw [goMatches_unresolved (scanMatches t) t [] st hall]
    simp
  refine ⟨hmain, ?_, ?_, rfl⟩
  · intro hne
    rw [resolveChars, hmain true]
    have : ((scanMatches t).map (fun m => trimChars m.2)).isEmpty = false := by
      cases h : (scanMatches t).map (fun m => trimChars m.2) with
      | nil => exact absurd h hne
      | cons x xs => rfl
    simp [mkResolver, this]
  · rw [resolveChars, hmain false]
    simp [mkResolver]

/-- Witness for C2 (amended): two distinct undefined names. -/
theorem c2_unresolved_handling_witness :
    resolveChars w0 (mkResolver [] ⟨some true, none⟩)
        (braced ['a'] ++ 'x' :: braced ['b']) wst0 =
      .error (.unresolvedVars [['a'], ['b']]) := by
  have h := c2_unresolved_handling w0 wst0 [] none
    (braced ['a'] ++ 'x' :: braced ['b']) (by decide)
  have h2 := h.2.1 (by decide)
  have heq : (scanMatches (braced ['a'] ++ 'x' :: braced ['b'])).map
      (fun m => trimChars m.2) = [['a'], ['b']] := by decide
  rw [heq] at h2
  exact h2

/-- Specialisation of `resolveGo_braced` to the bare placeholder template,
for dollar-free substituted values (inserted verbatim). -/
theorem resolveGo_braced_nil {w : World} {R : ResolverM} {u : WState} {f : Nat}
    {n v : List Char} (hok : nameOk n)
    (hlook : lookupSources R.sources (stripEnv n) = some v) :
    (hasVariables v = false → '$' ∉ v →
       resolveGo w R (f + 1) (braced n) u = .ok (⟨v, []⟩, u)) ∧
    (∀ res u2, hasVariables v = true → '$' ∉ res.value →
       resolveGo w R f v u = .ok (res, u2) →
       resolveGo w R (f + 1) (braced n) u = .ok (res, u2)) ∧
    (∀ e, hasVariables v = true → resolveGo w R f v u = .error e →
       resolveGo w R (f + 1) (braced n) u = .error e) := by
  have h := resolveGo_braced (w := w) (R := R) (u := u) (f := f)
    (p := []) (s := []) (n := n) (v := v) (by simp) (by simp) hok hlook
  refine ⟨fun hv hd => ?_, fun res u2 hv hd hr => ?_, fun e hv hr => ?_⟩
  · have h1 := h.1 hv
    rw [getSubstitution_nodollar _ _ _ v hd] at h1
    simpa using h1
  · have h1 := h.2.1 res u2 hv hr
    rw [getSubstitution_nodollar _ _ _ res.value hd] at h1
    simpa using h1
  · have h1 := h.2.2 e hv hr
    simpa using h1


/-! ## Claim C3 -/

/-- Counterexample for C3: the claim says a chain `a → b → c → literal`
within the depth bound always resolves to the literal. For the literal
value `"$&"`, the innermost `replace` re-inserts the matched placeholder
text (the JS matched-substring escape), so the chain resolves —
successfully and in strict mode — to the placeholder text for `c`, not
to the literal. -/
theorem c3_counterexample :
    resolveChars w0 (mkResolver [srcChainDollar] ⟨some true, some 10⟩)
        (braced ['a']) wst0 = .ok (braced ['c'], wst0) ∧
    braced ['c'] ≠ "$&".toList := ⟨rfl, by decide⟩

/-- C3 (amended): recursive resolution of the chain `a → b → c → literal`
with a dollar-free literal succeeds whenever the chain depth fits the
configured maximum (`2 ≤ maxDepth` suffices for this three-link chain, so
the default 10 does), yielding the literal (a literal containing
replacement-string escapes is inserted with those escapes interpreted);
the circular chain `a → b → a` always throws the depth-exceeded failure —
for every configured maximum and in both modes — and that failure is
distinct from the unresolved-variables failure (the rendered messages
always differ). The embedding is total, so non-termination is excluded by
construction: every fuel-indexed run ends in `.ok` or `.error`. -/
theorem c3_recursion_terminates
    (w : World) (st : WState) (strictFlag strictFlag2 : Option Bool)
    (gchain gcyc : List Char → Option (List Char))
    (nm nm2 : List Char) (pr pr2 : Int) (lit : List Char) (md md2 : Nat)
    (hmd : 2 ≤ md)
    (hga : gchain ['a'] = some (braced ['b']))
    (hgb : gchain ['b'] = some (braced ['c']))
    (hgc : gchain ['c'] = some lit)
    (hlit : hasVariables lit = false)
    (hdl : '$' ∉ lit)
    (hya : gcyc ['a'] = some (braced ['b']))
    (hyb : gcyc ['b'] = some (braced ['a'])) :
    resolveChars w (mkResolver [⟨nm, pr, gchain⟩] ⟨strictFlag, some md⟩)
        (braced ['a']) st = .ok (lit, st) ∧
    resolveChars w (mkResolver [⟨nm2, pr2, gcyc⟩] ⟨strictFlag2, some md2⟩)
        (braced ['a']) st = .error (.depthExceeded md2) ∧
    (∀ (m : Nat) (names : List (List Char)),
       errMessage (.depthExceeded m) ≠ errMessage (.unresolvedVars names)) := by
  have hok_a : nameOk ['a'] := by constructor <;> decide
  have hok_b : nameOk ['b'] := by constructor <;> decide
  have hok_c : nameOk ['c'] := by constructor <;> decide
  refine ⟨?_, ?_, ?_⟩
  · -- the chain
    obtain ⟨m, rfl⟩ : ∃ m, md = m + 2 := ⟨md - 2, by omega⟩
    have hl_a : lookupSources
        (mkResolver [⟨nm, pr, gchain⟩] ⟨strictFlag, some (m + 2)⟩).sources
        (stripEnv ['a']) = some (braced ['b']) := by
      show lookupSources [⟨nm, pr, gchain⟩] ['a'] = some (braced ['b'])
      rw [lookupSources, show (⟨nm, pr, gchain⟩ : VariableSource).get = gchain from rfl,
          hga]
    have hl_b : lookupSources
        (mkResolver [⟨nm, pr, gchain⟩] ⟨strictFlag, some (m + 2)⟩).sources
        (stripEnv ['b']) = some (braced ['c']) := by
      show lookupSources [⟨nm, pr, gchain⟩] ['b'] = some (braced ['c'])
      rw [lookupSources, show (⟨nm, pr, gchain⟩ : VariableSource).get = gchain from rfl,
          hgb]
    have hl_c : lookupSources
        (mkResolver [⟨nm, pr, gchain⟩] ⟨strictFlag, some (m + 2)⟩).sources
        (stripEnv ['c']) = some lit := by
      show lookupSources [⟨nm, pr, gchain⟩] ['c'] = some lit
      rw [lookupSources, show (⟨nm, pr, gchain⟩ : VariableSource).get = gchain from rfl,
          hgc]
    have hC : resolveGo w (mkResolver [⟨nm, pr, gchain⟩] ⟨strictFlag, some (m + 2)⟩)
        (m + 1) (braced ['c']) st = .ok (⟨lit, []⟩, st) :=
      (resolveGo_braced_nil (f := m) hok_c hl_c).1 hlit hdl
    have hB : resolveGo w (mkResolver [⟨nm, pr, gchain⟩] ⟨strictFlag, some (m + 2)⟩)
        (m + 2) (braced ['b']) st = .ok (⟨lit, []⟩, st) :=
      (resolveGo_braced_nil (f := m + 1) hok_b hl_b).2.1 ⟨lit, []⟩ st (by decide) hdl hC
    have hA : resolveGo w (mkResolver [⟨nm, pr, gchain⟩] ⟨strictFlag, some (m + 2)⟩)
        (m + 2 + 1) (braced ['a']) st = .ok (⟨lit, []⟩, st) :=
      (resolveGo_braced_nil (f := m + 2) hok_a hl_a).2.1 ⟨lit, []⟩ st (by decide) hdl hB
    rw [resolveChars, resolveWithInfo,
        show (mkResolver [⟨nm, pr, gchain⟩] ⟨strictFlag, some (m + 2)⟩).maxDepth
          = m + 2 from rfl,
        hA]
    simp
  · -- the cycle
    have hl_a : lookupSources
        (mkResolver [⟨nm2, pr2, gcyc⟩] ⟨strictFlag2, some md2⟩).sources
        (stripEnv ['a']) = some (braced ['b']) := by
      show lookupSources [⟨nm2, pr2, gcyc⟩] ['a'] = some (braced ['b'])
      rw [lookupSources, show (⟨nm2, pr2, gcyc⟩ : VariableSource).get = gcyc from rfl,
          hya]
    have hl_b : lookupSources
        (mkResolver [⟨nm2, pr2, gcyc⟩] ⟨strictFlag2, some md2⟩).sources
        (stripEnv ['b']) = some (braced ['a']) := by
      show lookupSources [⟨nm2, pr2, gcyc⟩] ['b'] = some (braced ['a'])
      rw [lookupSources, show (⟨nm2, pr2, gcyc⟩ : VariableSource).get = gcyc from rfl,
          hyb]
    have hcyc : ∀ fuel : Nat, ∀ stx : WState,
        resolveGo w (mkResolver [⟨nm2, pr2, gcyc⟩] ⟨strictFlag2, some md2⟩)
          fuel (braced ['a']) stx =
            .error (.depthExceeded
              (mkResolver [⟨nm2, pr2, gcyc⟩] ⟨strictFlag2, some md2⟩).maxDepth) ∧
        resolveGo w (mkResolver [⟨nm2, pr2, gcyc⟩] ⟨strictFlag2, some md2⟩)
          fuel (braced ['b']) stx =
            .error (.depthExceeded
              (mkResolver [⟨nm2, pr2, gcyc⟩] ⟨strictFlag2, some md2⟩).maxDepth) := by
      intro fuel
      induction fuel with
      | zero => intro stx; exact ⟨rfl, rfl⟩
      | succ fu ih =>
        intro stx
        constructor
        · exact (resolveGo_braced_nil (f := fu) hok_a hl_a).2.2 _ (by decide)
            (ih stx).2
        · exact (resolveGo_braced_nil (f := fu) hok_b hl_b).2.2 _ (by decide)
            (ih stx).1
    rw [resolveChars, resolveWithInfo, (hcyc _ st).1]
    rfl
  · intro m names h
    have := congrArg (fun l => l.headD ' ') h
    revert this
    cases names <;> simp [errMessage, joinComma, natToChars]

/-- Witness for C3 (amended): a concrete chain source with a dollar-free
literal and a concrete cycle source at the default maximum depth. -/
theorem c3_recursion_terminates_witness :
    resolveChars w0 (mkResolver [srcChain] ⟨some true, some 10⟩) (braced ['a']) wst0 =
      .ok ("L".toList, wst0) ∧
    resolveChars w0 (mkResolver [srcCycle] ⟨some true, some 10⟩) (braced ['a']) wst0 =
      .error (.depthExceeded 10) := by
  have h := c3_recursion_terminates w0 wst0 (some true) (some true)
    chainGet cycleGet "Chain".toList "Cycle".toList 300 300 "L".toList 10 10
    (by omega) (by decide) (by decide) (by decide) (by decide) (by decide) (by decide)
    (by decide)
  exact ⟨h.1, h.2.1⟩


/-! ## Claim C9 -/

theorem draw16_lt {q : ℚ} (_h0 : 0 ≤ q) (h1 : q < 1) : draw16 q < 16 := by
  have hfl : Int.floor (q * 16) < 16 := by
    rw [Int.floor_lt]
    push_cast
    nlinarith
  unfold draw16
  omega

theorem hexChar_isHex {d : Nat} (h : d < 16) : isHexDigit (hexChar d) = true := by
  have hd : d = 0 ∨ d = 1 ∨ d = 2 ∨ d = 3 ∨ d = 4 ∨ d = 5 ∨ d = 6 ∨ d = 7 ∨
      d = 8 ∨ d = 9 ∨ d = 10 ∨ d = 11 ∨ d = 12 ∨ d = 13 ∨ d = 14 ∨ d = 15 := by
    omega
  rcases hd with h|h|h|h|h|h|h|h|h|h|h|h|h|h|h|h <;> rw [h] <;> decide

theorem hexChar_variant (d : Nat) :
    hexChar (d &&& 3 ||| 8) = '8' ∨ hexChar (d &&& 3 ||| 8) = '9' ∨
    hexChar (d &&& 3 ||| 8) = 'a' ∨ hexChar (d &&& 3 ||| 8) = 'b' := by
  have h3 : d &&& 3 ≤ 3 := Nat.and_le_right
  have hd : d &&& 3 = 0 ∨ d &&& 3 = 1 ∨ d &&& 3 = 2 ∨ d &&& 3 = 3 := by omega
  rcases hd with h|h|h|h <;> rw [h] <;> decide

theorem hexChar_ne_dollar (d : Nat) : hexChar d ≠ '$' := by
  by_cases h : d < 16
  · have hx := hexChar_isHex h
    intro he
    rw [he] at hx
    exact absurd hx (by decide)
  · rw [hexChar, List.getD_eq_default]
    · decide
    · have hlen : ("0123456789abcdef".toList).length = 16 := by decide
      omega

theorem natToChars_ne_dollar {n : Nat} : '$' ∉ natToChars n := by
  intro h
  have := natToChars_digits '$' h
  exact absurd this (by decide)

theorem uuidGo_ne_dollar (rand : Nat → ℚ) :
    ∀ (tpl : List Char) (k : Nat), (∀ c ∈ tpl, c ≠ '$') →
      ∀ c ∈ (uuidGo rand tpl k).1, c ≠ '$' := by
  intro tpl
  induction tpl with
  | nil => intro k _ c hc; simp [uuidGo] at hc
  | cons d cs ih =>
    intro k hall c hc
    have htail : ∀ x ∈ cs, x ≠ '$' := fun x hx => hall x (List.mem_cons_of_mem _ hx)
    by_cases hx : d = 'x'
    · subst hx
      simp only [uuidGo, if_pos rfl] at hc
      rcases List.mem_cons.mp hc with h | h
      · subst h; exact hexChar_ne_dollar _
      · exact ih (k + 1) htail c h
    · by_cases hy : d = 'y'
      · subst hy
        simp only [uuidGo, if_neg (by decide : ¬('y' = 'x')), if_pos rfl] at hc
        rcases List.mem_cons.mp hc with h | h
        · subst h; exact hexChar_ne_dollar _
        · exact ih (k + 1) htail c h
      · simp only [uuidGo, if_neg hx, if_neg hy] at hc
        rcases List.mem_cons.mp hc with h | h
        · rw [h]; exact hall d (List.mem_cons_self _ _)
        · exact ih k htail c h

theorem generateUuid_no_dollar (rand : Nat → ℚ) (k : Nat) :
    '$' ∉ (generateUuid rand k).1 := by
  intro h
  exact uuidGo_ne_dollar rand uuidTemplate k (by decide) '$' h rfl

/-- The generator's output matches the pattern positionally: for any
template, each `x` produces a hex digit, each `y` a variant nibble, and
every other character is copied. -/
theorem matchesPattern_uuidGo (rand : Nat → ℚ) (hr : ∀ i, 0 ≤ rand i ∧ rand i < 1) :
    ∀ (tpl : List Char) (k : Nat), matchesPattern tpl (uuidGo rand tpl k).1 = true := by
  intro tpl
  induction tpl with
  | nil => intro k; rfl
  | cons c cs ih =>
    intro k
    by_cases hx : c = 'x'
    · subst hx
      simp [uuidGo, matchesPattern, hexChar_isHex (draw16_lt (hr k).1 (hr k).2),
        ih (k + 1)]
    · by_cases hy : c = 'y'
      · subst hy
        rcases hexChar_variant (draw16 (rand k)) with h|h|h|h <;>
          simp [uuidGo, matchesPattern, h, ih (k + 1)]
      · simp [uuidGo, matchesPattern, hx, hy, ih k]

theorem uuidV4Chk_generateUuid (rand : Nat → ℚ)
    (hr : ∀ i, 0 ≤ rand i ∧ rand i < 1) (k : Nat) :
    uuidV4Chk (generateUuid rand k).1 = true :=
  matchesPattern_uuidGo rand hr uuidTemplate k

theorem randomIntDraw_lt {q : ℚ} (_h0 : 0 ≤ q) (h1 : q < 1) :
    randomIntDraw q < 1000000 := by
  have hfl : Int.floor (q * 1000000) < 1000000 := by
    rw [Int.floor_lt]
    push_cast
    nlinarith
  unfold randomIntDraw
  omega


/-- C9: every built-in placeholder is resolved from the generator table —
for an arbitrary source list, so generators take precedence over (and
never fall through to) source lookup — and is recomputed per occurrence:
`$uuid` yields a string matching the canonical v4 pattern, `$timestamp`
yields the current `Date.now()` reading as decimal text, `$randomInt`
yields a decimal integer in `[0, 1000000)`, and two occurrences of
`$timestamp` in one template consume two successive clock readings. -/
theorem c9_builtin_generators
    (w : World) (st : WState) (srcs : List VariableSource) (opts : ResolverOptions)
    (hr : ∀ i, 0 ≤ w.rand i ∧ w.rand i < 1) :
    (∃ st', resolveChars w (mkResolver srcs opts) (braced "$uuid".toList) st =
        .ok ((generateUuid w.rand st.nrand).1, st') ∧
      uuidV4Chk (generateUuid w.rand st.nrand).1 = true) ∧
    resolveChars w (mkResolver srcs opts) (braced "$timestamp".toList) st =
      .ok (natToChars (w.now st.nnow), { st with nnow := st.nnow + 1 }) ∧
    (∃ m : Nat, m < 1000000 ∧
      resolveChars w (mkResolver srcs opts) (braced "$randomInt".toList) st =
        .ok (natToChars m, { st with nrand := st.nrand + 1 })) ∧
    resolveChars w (mkResolver srcs opts)
        (braced "$timestamp".toList ++ 'x' :: braced "$timestamp".toList) st =
      .ok (natToChars (w.now st.nnow) ++ 'x' :: natToChars (w.now (st.nnow + 1)),
           { st with nnow := st.nnow + 2 }) := by
  refine ⟨?_, ?_, ?_, ?_⟩
  · -- $uuid
    refine ⟨{ st with nrand := (generateUuid w.rand st.nrand).2 }, ?_,
      uuidV4Chk_generateUuid w.rand hr st.nrand⟩
    have hb : (match builtinGroup (trimChars "$uuid".toList) with
               | some g => resolveBuiltin w st g
               | none => ((none : Option (List Char)), st)) =
        (some (generateUuid w.rand st.nrand).1,
         { st with nrand := (generateUuid w.rand st.nrand).2 }) := rfl
    have h := resolveGo_builtin_single
      (R := mkResolver srcs opts) (f := (mkResolver srcs opts).maxDepth)
      (n := "$uuid".toList)
      (by decide) (by decide) (by decide) (generateUuid_no_dollar w.rand st.nrand) hb
    rw [resolveChars, resolveWithInfo, h]
    simp
  · -- $timestamp
    have hb : (match builtinGroup (trimChars "$timestamp".toList) with
               | some g => resolveBuiltin w st g
               | none => ((none : Option (List Char)), st)) =
        (some (natToChars (w.now st.nnow)), { st with nnow := st.nnow + 1 }) := rfl
    have h := resolveGo_builtin_single
      (R := mkResolver srcs opts) (f := (mkResolver srcs opts).maxDepth)
      (n := "$timestamp".toList)
      (by decide) (by decide) (by decide) natToChars_ne_dollar hb
    rw [resolveChars, resolveWithInfo, h]
    simp
  · -- $randomInt
    refine ⟨randomIntDraw (w.rand st.nrand),
      randomIntDraw_lt (hr st.nrand).1 (hr st.nrand).2, ?_⟩
    have hb : (match builtinGroup (trimChars "$randomInt".toList) with
               | some g => resolveBuiltin w st g
               | none => ((none : Option (List Char)), st)) =
        (some (natToChars (randomIntDraw (w.rand st.nrand))),
         { st with nrand := st.nrand + 1 }) := rfl
    have h := resolveGo_builtin_single
      (R := mkResolver srcs opts) (f := (mkResolver srcs opts).maxDepth)
      (n := "$randomInt".toList)
      (by decide) (by decide) (by decide) natToChars_ne_dollar hb
    rw [resolveChars, resolveWithInfo, h]
    simp
  · -- two occurrences of $timestamp
    have hscan : scanMatches (braced "$timestamp".toList ++ 'x' ::
        braced "$timestamp".toList) =
        [(braced "$timestamp".toList, "$timestamp".toList),
         (braced "$timestamp".toList, "$timestamp".toList)] := by decide
    have hb1 : (match builtinGroup (trimChars "$timestamp".toList) with
               | some g => resolveBuiltin w st g
               | none => ((none : Option (List Char)), st)) =
        (some (natToChars (w.now st.nnow)), { st with nnow := st.nnow + 1 }) := rfl
    have hb2 : (match builtinGroup (trimChars "$timestamp".toList) with
               | some g => resolveBuiltin w { st with nnow := st.nnow + 1 } g
               | none => ((none : Option (List Char)), { st with nnow := st.nnow + 1 })) =
        (some (natToChars (w.now (st.nnow + 1))), { st with nnow := st.nnow + 1 + 1 }) := rfl
    have hrepl1 : replaceFirst (braced "$timestamp".toList)
        (natToChars (w.now st.nnow))
        (braced "$timestamp".toList ++ 'x' :: braced "$timestamp".toList) =
        natToChars (w.now st.nnow) ++ 'x' :: braced "$timestamp".toList := by
      have h := replaceFirst_braced_nd (p := []) (n := "$timestamp".toList)
        (s := 'x' :: braced "$timestamp".toList)
        (v := natToChars (w.now st.nnow))
        (by simp) natToChars_ne_dollar
      simpa using h
    have hrepl2 : replaceFirst (braced "$timestamp".toList)
        (natToChars (w.now (st.nnow + 1)))
        (natToChars (w.now st.nnow) ++ 'x' :: braced "$timestamp".toList) =
        natToChars (w.now st.nnow) ++ 'x' :: natToChars (w.now (st.nnow + 1)) := by
      have hnolb : ∀ c ∈ natToChars (w.now st.nnow) ++ ['x'], c ≠ lbrace := by
        intro c hc
        rcases List.mem_append.mp hc with h | h
        · exact natToChars_nolb c h
        · rw [List.mem_singleton] at h; subst h; decide
      have h := replaceFirst_braced_nd (p := natToChars (w.now st.nnow) ++ ['x'])
        (n := "$timestamp".toList)
        (s := []) (v := natToChars (w.now (st.nnow + 1)))
        hnolb natToChars_ne_dollar
      simpa using h
    rw [resolveChars, resolveWithInfo, resolveGo, hscan, goMatches, hb1]
    dsimp only
    rw [hrepl1, goMatches, hb2]
    dsimp only
    rw [hrepl2, goMatches_nil]
    simp


/-- Witness for C9: with the all-zero random stream and the identity
clock, `$timestamp` resolves to "0" and the generated uuid is
"00000000-0000-4000-8000-000000000000", which matches the pattern. -/
theorem c9_builtin_generators_witness :
    resolveChars w0 (mkResolver [] ⟨some true, none⟩) (braced "$timestamp".toList) wst0 =
      .ok (['0'], ⟨0, 1, 0⟩) ∧
    uuidV4Chk (generateUuid w0.rand 0).1 = true := by
  have h := c9_builtin_generators w0 wst0 [] ⟨some true, none⟩
    (fun _ => ⟨le_refl 0, by norm_num [w0]⟩)
  exact ⟨h.2.1, (h.1.choose_spec).2⟩


/-! ## Claim C10 -/

/-- C10: the session's variable source returns `String(v)` for every key
whose stored value `v` is defined: integers as decimal text, booleans as
"true"/"false", `null` as "null", plain objects as "[object Object]";
only an `undefined` value (indistinguishable from absence through
`Map.get`) is reported absent, in which case the resolver's lookup falls
through to the next source. -/
theorem c10_session_string_coercion (s : SessionState) (k : List Char) :
    (∀ v : JValue, mapGet s k = some v → v ≠ JValue.undef →
       sessionSourceGet s k = some (jsString v)) ∧
    (mapGet s k = some JValue.undef → sessionSourceGet s k = none) ∧
    (mapGet s k = none → sessionSourceGet s k = none) ∧
    (∀ n : Int, jsString (JValue.jnum n) = intToChars n) ∧
    jsString (JValue.jbool true) = "true".toList ∧
    jsString (JValue.jbool false) = "false".toList ∧
    jsString JValue.jnull = "null".toList ∧
    jsString JValue.jobj = "[object Object]".toList ∧
    (∀ (p : Int) (rest : List VariableSource),
       sessionSourceGet s k = none →
       lookupSources (sessionSource s p :: rest) k = lookupSources rest k) := by
  refine ⟨?_, ?_, ?_, fun _ => rfl, rfl, rfl, rfl, rfl, ?_⟩
  · intro v hv hne
    rw [sessionSourceGet, hv]
    simp [hne]
  · intro hv
    rw [sessionSourceGet, hv]
    simp
  · intro hv
    rw [sessionSourceGet, hv]
  · intro p rest hnone
    rw [lookupSources]
    have : (sessionSource s p).get k = none := hnone
    rw [this]

/-- Witness for C10: a stored integer `7` is served as the string "7". -/
theorem c10_session_string_coercion_witness :
    sessionSourceGet [(['t'], JValue.jnum 7)] ['t'] = some ['7'] := by
  have h := (c10_session_string_coercion [(['t'], JValue.jnum 7)] ['t']).1
    (JValue.jnum 7) (by decide) (by decide)
  exact h

/-! ## Claim C4 -/

/-- Counterexample for C4: the claim says `getEnv` never reads the live
process environment. `RequestRunner` constructs its sandbox without an
`env` map, and `ScriptSandbox` then defaults to `process.env`
(`options.env ?? process.env`), so the very same construction yields
different `getEnv` results under two different host environments — the
sandbox does read the live process environment in the shipped pipeline
configuration. -/
theorem c4_counterexample :
    (runnerSandbox none
        (fun n => if n = "HOME".toList then some ['a'] else none)).context.getEnv
        "HOME".toList ≠
    (runnerSandbox none
        (fun n => if n = "HOME".toList then some ['b'] else none)).context.getEnv
        "HOME".toList := by
  decide

/-- C4 (amended): when an environment map is supplied at construction,
`getEnv` is a pure lookup in exactly that map — independent of the host
process environment — and every disallowed capability name (`process`,
`require`, module/filesystem, network and timer APIs) is bound to
`undefined` in the sandbox scope, for pre- and post-script scopes alike;
when no map is supplied, the sandbox falls back to the live
`process.env`. -/
theorem c4_sandbox_env_isolation
    (opts : SandboxOptions) (m pe pe2 : EnvMap) (n : List Char) (r : Bool)
    (henv : opts.env = some m) :
    (mkSandbox opts pe).context.getEnv n = m n ∧
    (mkSandbox opts pe).context.getEnv n = (mkSandbox opts pe2).context.getEnv n ∧
    (∀ b ∈ blockedNames, scopeLookup (sandboxScope r) b = some ScopeVal.undef) ∧
    (mkSandbox ⟨opts.timeout, none⟩ pe).context.getEnv n = pe n := by
  refine ⟨?_, ?_, ?_, rfl⟩
  · simp [mkSandbox, mkRContext, RContext.getEnv, henv]
  · simp [mkSandbox, mkRContext, RContext.getEnv, henv]
  · cases r <;> decide

/-- Witness for C4 (amended): a supplied one-entry map is consulted, not
the (here empty) process environment. -/
theorem c4_sandbox_env_isolation_witness :
    (mkSandbox ⟨none, some (fun n => if n = ['k'] then some ['v'] else none)⟩
        penv0).context.getEnv ['k'] = some ['v'] := by
  have h := c4_sandbox_env_isolation
    ⟨none, some (fun n => if n = ['k'] then some ['v'] else none)⟩
    (fun n => if n = ['k'] then some ['v'] else none) penv0 penv0 ['k'] true rfl
  rw [h.1]
  decide


/-! ## Lemmas: maps, script runs and session merging -/

theorem mapGet_mapSet (m : JMap) (k' : List Char) (v : JValue) (k : List Char) :
    mapGet (mapSet m k' v) k = if k = k' then some v else mapGet m k := by
  induction m with
  | nil =>
    rw [mapSet, mapGet]
    by_cases h : k = k' <;> simp [h, mapGet]
  | cons e rest ih =>
    obtain ⟨k0, v0⟩ := e
    rw [mapSet]
    by_cases h0 : k' = k0
    · subst h0
      by_cases h : k = k' <;> simp [mapGet, h]
    · rw [if_neg h0]
      by_cases h : k = k0
      · subst h
        simp [mapGet, show ¬(k = k') from fun hh => h0 hh.symm]
      · simp [mapGet, h, ih]

theorem runOps_assertions (ops : List ScriptOp) :
    ∀ (ctx : RContext) (cl : List (List Char)),
    (ops.foldl applyOp (ctx, cl)).1.assertions = ctx.assertions ++ opAsserts ops := by
  induction ops with
  | nil => intro ctx cl; simp [opAsserts]
  | cons op rest ih =>
    intro ctx cl
    rw [List.foldl_cons]
    cases op with
    | setVar k v => rw [ih]; rfl
    | radiusLog m => rw [ih]; rfl
    | consoleLog m => rw [ih]; rfl
    | assertRec r =>
      rw [ih]
      show (ctx.assertions ++ [r]) ++ opAsserts rest = ctx.assertions ++ opAsserts (.assertRec r :: rest)
      rw [List.append_assoc]
      rfl

theorem runOps_vars (ops : List ScriptOp) :
    ∀ (ctx : RContext) (cl : List (List Char)) (k : List Char),
    mapGet (ops.foldl applyOp (ctx, cl)).1.vars k =
      ((lastWrite ops k).elim (mapGet ctx.vars k) some) := by
  induction ops with
  | nil => intro ctx cl k; simp [lastWrite]
  | cons op rest ih =>
    intro ctx cl k
    rw [List.foldl_cons]
    cases op with
    | setVar k' v =>
      rw [ih]
      show (lastWrite rest k).elim
          (mapGet (mapSet ctx.vars k' v) k) some = _
      rw [mapGet_mapSet, lastWrite]
      cases hlw : lastWrite rest k with
      | some w => simp [hlw]
      | none => by_cases h : k = k' <;> simp [hlw, h]
    | radiusLog m => rw [ih]; rfl
    | consoleLog m => rw [ih]; rfl
    | assertRec r => rw [ih]; rfl

theorem runOps_envVars (ops : List ScriptOp) :
    ∀ (ctx : RContext) (cl : List (List Char)),
    (ops.foldl applyOp (ctx, cl)).1.envVars = ctx.envVars := by
  induction ops with
  | nil => intro ctx cl; rfl
  | cons op rest ih =>
    intro ctx cl
    rw [List.foldl_cons]
    cases op <;> rw [ih] <;> rfl

theorem mapGet_sessionMerge (m : JMap) :
    ∀ (s : SessionState) (k : List Char),
    mapGet (sessionMerge s m) k = ((lastEntry m k).elim (mapGet s k) some) := by
  induction m with
  | nil => intro s k; simp [sessionMerge, lastEntry]
  | cons e rest ih =>
    intro s k
    show mapGet (sessionMerge (mapSet s e.1 e.2) rest) k = _
    rw [ih, mapGet_mapSet]
    rw [lastEntry]
    cases hle : lastEntry rest k with
    | some w => rfl
    | none => by_cases h : k = e.1 <;> simp [h]


/-! ## Claim C5 -/

/-- C5: when the resolved request has a pre-script and running it fails,
`execute` returns the synthetic error response — status `0`, status text
"Error", body the failure message (prefixed "Pre-script error: ") — and
the transport is never invoked: the event trace of the run contains no
transport call. -/
theorem c5_prescript_failure_blocks_transport
    (w : World) (z : WState) (transport : RadiusRequest → Response)
    (vmRun : List Char → Option Response → ScriptBehavior)
    (st : RunnerState) (req resolved : RadiusRequest) (z2 : WState)
    (ptext msg : List Char)
    (hres : resolveRequestM w (runnerResolver st) req z = .ok (resolved, z2))
    (hpre : resolved.preScript = some ptext)
    (hfail : (vmRun ptext none).failure = some msg) :
    ∃ stOut, executeReq w transport vmRun st req z =
      .ok (createErrorResponse (preErrHead ++ msg) resolved.method resolved.url,
           stOut, [RunEvent.resolvedReq, RunEvent.ranPre]) ∧
    (∀ r, RunEvent.calledTransport r ∉
        ([RunEvent.resolvedReq, RunEvent.ranPre] : List RunEvent)) ∧
    (createErrorResponse (preErrHead ++ msg) resolved.method resolved.url).status = 0 ∧
    (createErrorResponse (preErrHead ++ msg) resolved.method resolved.url).statusText =
      "Error".toList ∧
    (createErrorResponse (preErrHead ++ msg) resolved.method resolved.url).body =
      preErrHead ++ msg := by
  have hmain : executeReq w transport vmRun st req z =
      .ok (createErrorResponse (preErrHead ++ msg) resolved.method resolved.url,
           { baseSources := st.baseSources, session := st.session,
             sandbox := ((match st.session with
                          | some s => (st.sandbox.resetContext).setVariables s
                          | none => st.sandbox.resetContext).executeScript
                            (vmRun ptext none)).2 },
           [RunEvent.resolvedReq, RunEvent.ranPre]) := by
    unfold executeReq
    rw [hres]
    simp only [bind, Except.bind]
    rw [hpre]
    dsimp only [Sandbox.executeScript]
    rw [hfail]
    simp
  exact ⟨_, hmain, fun r => by simp, rfl, rfl, rfl⟩


/-- Witness for C5: a concrete failing pre-script run returns the
status-0 "Error" response with body "Pre-script error: boom" and a
transport-free trace. -/
theorem c5_prescript_failure_blocks_transport_witness :
    ∃ stOut, executeReq w0 tr200 vmFail rsEmpty reqPQ wst0 =
      .ok (createErrorResponse (preErrHead ++ "boom".toList)
             reqPQ.method reqPQ.url, stOut,
           [RunEvent.resolvedReq, RunEvent.ranPre]) := by
  have h := c5_prescript_failure_blocks_transport w0 wst0 tr200 vmFail rsEmpty
    reqPQ reqPQ wst0 "P".toList "boom".toList rfl rfl rfl
  obtain ⟨stOut, hmain, -⟩ := h
  exact ⟨stOut, hmain⟩


/-! ## Claim C6 -/

/-- The transport/post phase when the post-script fails: the transport's
response survives with all core fields unchanged, and the failure is
recorded as a warning event. -/
theorem executePost_fail (transport : RadiusRequest → Response)
    (vmRun : List Char → Option Response → ScriptBehavior)
    (st' : RunnerState) (resolved : RadiusRequest)
    (ev : List RunEvent) (ptext msg : List Char)
    (hpost : resolved.postScript = some ptext)
    (hfail : (vmRun ptext (some (transport resolved))).failure = some msg) :
    ∃ out stOut evs, executePost transport vmRun st' resolved ev = .ok (out, stOut, evs) ∧
      out.status = (transport resolved).status ∧
      out.statusText = (transport resolved).statusText ∧
      out.headers = (transport resolved).headers ∧
      out.body = (transport resolved).body ∧
      out.json = (transport resolved).json ∧
      out.timing = (transport resolved).timing ∧
      RunEvent.warnedPostError (postErrHead ++ msg) ∈ evs := by
  unfold executePost
  rw [hpost]
  dsimp only [Sandbox.executeScript]
  rw [hfail]
  dsimp only
  refine ⟨_, _, _, rfl, ?_, ?_, ?_, ?_, ?_, ?_, ?_⟩
  · split <;> split <;> rfl
  · split <;> split <;> rfl
  · split <;> split <;> rfl
  · split <;> split <;> rfl
  · split <;> split <;> rfl
  · split <;> split <;> rfl
  · split <;> (try split) <;> simp_all


/-- C6: when the post-script fails, the response obtained from the
transport is still returned — status, status text, headers, body,
parsed-JSON view and timing unchanged — and the failure is recorded as a
warning event; the post phase at most attaches the auxiliary
log/assertion fields. -/
theorem c6_postscript_failure_preserves_response
    (w : World) (z : WState) (transport : RadiusRequest → Response)
    (vmRun : List Char → Option Response → ScriptBehavior)
    (st : RunnerState) (req resolved : RadiusRequest) (z2 : WState)
    (ptext msg : List Char)
    (hres : resolveRequestM w (runnerResolver st) req z = .ok (resolved, z2))
    (hpreOk : ∀ p, resolved.preScript = some p → (vmRun p none).failure = none)
    (hpost : resolved.postScript = some ptext)
    (hfail : (vmRun ptext (some (transport resolved))).failure = some msg) :
    ∃ out stOut evs, executeReq w transport vmRun st req z = .ok (out, stOut, evs) ∧
      out.status = (transport resolved).status ∧
      out.statusText = (transport resolved).statusText ∧
      out.headers = (transport resolved).headers ∧
      out.body = (transport resolved).body ∧
      out.json = (transport resolved).json ∧
      out.timing = (transport resolved).timing ∧
      RunEvent.warnedPostError (postErrHead ++ msg) ∈ evs := by
  unfold executeReq
  rw [hres]
  simp only [bind, Except.bind]
  cases hpre : resolved.preScript with
  | none =>
    exact executePost_fail transport vmRun _ resolved _ ptext msg hpost hfail
  | some p =>
    have hsucc := hpreOk p hpre
    dsimp only [Sandbox.executeScript]
    rw [hsucc]
    exact executePost_fail transport vmRun _ resolved _ ptext msg hpost hfail

/-- Witness for C6: pre-script succeeds, post-script "Q" throws; the 200
response survives with its fields intact. -/
theorem c6_postscript_failure_preserves_response_witness :
    ∃ out stOut evs, executeReq w0 tr200 vmFailQ rsEmpty reqPQ wst0 =
        .ok (out, stOut, evs) ∧ out.status = 200 ∧
      RunEvent.warnedPostError (postErrHead ++ "qboom".toList) ∈ evs := by
  have h := c6_postscript_failure_preserves_response w0 wst0 tr200 vmFailQ rsEmpty
    reqPQ reqPQ wst0 "Q".toList "qboom".toList rfl
    (fun p hp => by
      rw [show p = "P".toList from by injection hp with h2; exact h2.symm]
      rfl)
    rfl rfl
  obtain ⟨out, stOut, evs, hmain, hstatus, -, -, -, -, -, hmem⟩ := h
  exact ⟨out, stOut, evs, hmain, by rw [hstatus]; rfl, hmem⟩


/-! ## Claim C7 -/

/-- Counterexample for C7: the claim says the attached assertion list
contains exactly the post-script's outcomes and never the same request's
pre-script outcomes. The sandbox context persists from pre to post within
one `execute` (it is only reset at the start), so with a pre-script
recording `exOne` and a post-script recording `exTwo` the attached list
is `[exOne, exTwo]`, not `[exTwo]`. -/
theorem c7_counterexample :
    (match executeReq w0 tr200 vmPQ rsEmpty reqPQ wst0 with
     | .ok (o, _, _) => o.assertions
     | .error _ => none) = some [exOne, exTwo] ∧
    some [exOne, exTwo] ≠ (some [exTwo] : Option (List ExpectRes)) := by
  exact ⟨rfl, by decide⟩

/-- The transport/post phase: the attached assertion list is the sandbox
context's accumulated outcomes followed by the post-script's own, or the
transport response's untouched field when both are empty. -/
theorem executePost_assertions (transport : RadiusRequest → Response)
    (vmRun : List Char → Option Response → ScriptBehavior)
    (st' : RunnerState) (resolved : RadiusRequest)
    (ev : List RunEvent) (ptext : List Char) (preA : List ExpectRes)
    (hpost : resolved.postScript = some ptext)
    (hassert : st'.sandbox.context.assertions = preA) :
    ∃ out stOut evs, executePost transport vmRun st' resolved ev = .ok (out, stOut, evs) ∧
      out.assertions =
        (if preA ++ opAsserts (vmRun ptext (some (transport resolved))).ops = []
         then (transport resolved).assertions
         else some (preA ++
            opAsserts (vmRun ptext (some (transport resolved))).ops)) := by
  subst hassert
  unfold executePost
  rw [hpost]
  dsimp only [Sandbox.executeScript]
  refine ⟨_, _, _, rfl, ?_⟩
  have hA : (runOps st'.sandbox.context (vmRun ptext (some (transport resolved))).ops).1.assertions =
      st'.sandbox.context.assertions ++ opAsserts (vmRun ptext (some (transport resolved))).ops :=
    runOps_assertions _ _ _
  rw [hA]
  by_cases hempty : st'.sandbox.context.assertions ++
      opAsserts (vmRun ptext (some (transport resolved))).ops = []
  · rw [if_pos hempty, hempty]
    simp
    split <;> rfl
  · rw [if_neg hempty]
    have hne : ((st'.sandbox.context.assertions ++
        opAsserts (vmRun ptext (some (transport resolved))).ops).isEmpty) = false := by
      cases h : st'.sandbox.context.assertions ++
          opAsserts (vmRun ptext (some (transport resolved))).ops with
      | nil => exact absurd h hempty
      | cons x xs => rfl
    simp [hne]

/-- C7 (amended): the assertion list attached to a response is the
pre-script's recorded outcomes followed by the post-script's, in call
order: the sandbox context persists across the pre and post scripts of
one request. It never contains outcomes of earlier requests — the initial
runner state `st` here is arbitrary, and the context is reset at the
start of each `execute` — and outcomes are only ever appended, never
mutated. When no outcome was recorded at all, the transport response's
field is left untouched. -/
theorem c7_assertions_attached
    (w : World) (z : WState) (transport : RadiusRequest → Response)
    (vmRun : List Char → Option Response → ScriptBehavior)
    (st : RunnerState) (req resolved : RadiusRequest) (z2 : WState)
    (ptext : List Char)
    (hres : resolveRequestM w (runnerResolver st) req z = .ok (resolved, z2))
    (hpreOk : ∀ p, resolved.preScript = some p → (vmRun p none).failure = none)
    (hpost : resolved.postScript = some ptext) :
    ∃ out stOut evs, executeReq w transport vmRun st req z = .ok (out, stOut, evs) ∧
      out.assertions =
        (if (match resolved.preScript with
             | some p => opAsserts (vmRun p none).ops
             | none => []) ++
            opAsserts (vmRun ptext (some (transport resolved))).ops = []
         then (transport resolved).assertions
         else some ((match resolved.preScript with
             | some p => opAsserts (vmRun p none).ops
             | none => []) ++
            opAsserts (vmRun ptext (some (transport resolved))).ops)) := by
  unfold executeReq
  rw [hres]
  simp only [bind, Except.bind]
  cases hpre : resolved.preScript with
  | none =>
    show ∃ out stOut evs,
      executePost transport vmRun
        { baseSources := st.baseSources, session := st.session,
          sandbox := match st.session with
                     | some s => st.sandbox.resetContext.setVariables s
                     | none => st.sandbox.resetContext }
        resolved [RunEvent.resolvedReq] = .ok (out, stOut, evs) ∧ _
    exact executePost_assertions transport vmRun _ resolved _ ptext [] hpost
      (by cases st.session <;> rfl)
  | some p =>
    have hsucc := hpreOk p hpre
    dsimp only [Sandbox.executeScript]
    rw [hsucc]
    have hctx : ∀ sb : Sandbox, ((match st.session with
        | some s => st.sandbox.resetContext.setVariables s
        | none => st.sandbox.resetContext) : Sandbox) = sb →
        (runOps sb.context (vmRun p none).ops).1.assertions =
          opAsserts (vmRun p none).ops := by
      intro sb hsb
      have h2 : (runOps sb.context (vmRun p none).ops).1.assertions =
          sb.context.assertions ++ opAsserts (vmRun p none).ops :=
        runOps_assertions _ _ _
      have h3 : sb.context.assertions = [] := by
        rw [← hsb]; cases st.session <;> rfl
      rw [h2, h3, List.nil_append]
    exact executePost_assertions transport vmRun _ resolved _ ptext
      (opAsserts (vmRun p none).ops) hpost (hctx _ rfl)


/-- Witness for C7 (amended): pre-script records `exOne`, post-script
records `exTwo`; the attached list is `[exOne, exTwo]`. -/
theorem c7_assertions_attached_witness :
    ∃ out stOut evs, executeReq w0 tr200 vmPQ rsEmpty reqPQ wst0 = .ok (out, stOut, evs) ∧
      out.assertions = some [exOne, exTwo] := by
  have h := c7_assertions_attached w0 wst0 tr200 vmPQ rsEmpty reqPQ reqPQ wst0
    "Q".toList rfl
    (fun p hp => by
      rw [show p = "P".toList from by injection hp with h2; exact h2.symm]
      rfl)
    rfl
  obtain ⟨out, stOut, evs, hmain, hass⟩ := h
  refine ⟨out, stOut, evs, hmain, ?_⟩
  rw [hass]
  rfl


/-! ## Claim C8 -/

theorem mapSet_keys_nodup {m : JMap} (h : (m.map Prod.fst).Nodup) (k : List Char)
    (v : JValue) : ((mapSet m k v).map Prod.fst).Nodup := by
  induction m with
  | nil =>
    exact List.Pairwise.cons (fun b hb => absurd hb (List.not_mem_nil b)) List.Pairwise.nil
  | cons e rest ih =>
    obtain ⟨k0, v0⟩ := e
    rw [mapSet]
    by_cases h0 : k = k0
    · rw [if_pos h0]
      exact h
    · rw [if_neg h0]
      simp only [List.map_cons, List.nodup_cons] at h ⊢
      refine ⟨?_, ih h.2⟩
      intro hmem
      have : ∀ m' : JMap, k0 ∉ m'.map Prod.fst →
          k0 ∈ (mapSet m' k v).map Prod.fst → k0 = k := by
        intro m'
        induction m' with
        | nil => intro _ hm; exact (List.mem_singleton.mp hm).symm ▸ rfl
        | cons e2 rest2 ih2 =>
          intro hnot hm
          rw [mapSet] at hm
          by_cases h2 : k = e2.1
          · rw [if_pos h2] at hm
            simp only [List.map_cons, List.mem_cons] at hm hnot
            rcases hm with h3 | h3
            · exact absurd (Or.inl h3) hnot
            · exact absurd (Or.inr h3) hnot
          · rw [if_neg h2] at hm
            simp only [List.map_cons, List.mem_cons] at hm hnot
            rcases hm with h3 | h3
            · exact absurd (Or.inl h3) hnot
            · exact ih2 (fun hx => hnot (Or.inr hx)) h3
      have hk0 := this rest h.1 hmem
      exact h0 (hk0.symm)

theorem lastEntry_none_of_not_mem {m : JMap} {k : List Char}
    (h : k ∉ m.map Prod.fst) : lastEntry m k = none := by
  induction m with
  | nil => rfl
  | cons e rest ih =>
    simp only [List.map_cons, List.mem_cons] at h
    rw [lastEntry, ih (fun hx => h (Or.inr hx))]
    rw [if_neg (fun hx => h (Or.inl hx))]

theorem mapGet_none_of_not_mem {m : JMap} {k : List Char}
    (h : k ∉ m.map Prod.fst) : mapGet m k = none := by
  induction m with
  | nil => rfl
  | cons e rest ih =>
    obtain ⟨k0, v0⟩ := e
    simp only [List.map_cons, List.mem_cons] at h
    rw [mapGet, if_neg (fun hx => h (Or.inl hx))]
    exact ih (fun hx => h (Or.inr hx))

theorem lastEntry_eq_mapGet {m : JMap} (h : (m.map Prod.fst).Nodup) (k : List Char) :
    lastEntry m k = mapGet m k := by
  induction m with
  | nil => rfl
  | cons e rest ih =>
    obtain ⟨k0, v0⟩ := e
    simp only [List.map_cons, List.nodup_cons] at h
    rw [lastEntry, mapGet, ih h.2]
    by_cases hk : k = k0
    · subst hk
      rw [mapGet_none_of_not_mem h.1]
    · cases hmg : mapGet rest k <;> simp [hk]

theorem foldl_mapSet_keys_nodup (l : JMap) :
    ∀ {base : JMap}, (base.map Prod.fst).Nodup →
    (((l.foldl (fun acc e => mapSet acc e.1 e.2) base)).map Prod.fst).Nodup := by
  induction l with
  | nil => intro base h; exact h
  | cons e rest ih =>
    intro base h
    rw [List.foldl_cons]
    exact ih (mapSet_keys_nodup h e.1 e.2)

theorem runOps_vars_keys_nodup (ops : List ScriptOp) :
    ∀ (ctx : RContext) (cl : List (List Char)),
    (ctx.vars.map Prod.fst).Nodup →
    (((ops.foldl applyOp (ctx, cl)).1.vars).map Prod.fst).Nodup := by
  induction ops with
  | nil => intro ctx cl h; exact h
  | cons op rest ih =>
    intro ctx cl h
    rw [List.foldl_cons]
    cases op with
    | setVar k v => exact ih _ _ (mapSet_keys_nodup h k v)
    | radiusLog m => exact ih _ _ h
    | consoleLog m => exact ih _ _ h
    | assertRec r => exact ih _ _ h


/-- The transport/post phase with no post-script: the transport's
response is returned as-is and only the transport-call event is added. -/
theorem executePost_nopost (transport : RadiusRequest → Response)
    (vmRun : List Char → Option Response → ScriptBehavior)
    (st' : RunnerState) (resolved : RadiusRequest) (ev : List RunEvent)
    (hpost : resolved.postScript = none) :
    executePost transport vmRun st' resolved ev =
      .ok (transport resolved, st', ev ++ [RunEvent.calledTransport resolved]) := by
  unfold executePost
  rw [hpost]

/-- C8: the whole request is resolved before the pre-script runs —
`resolved` is computed by the resolver built from the incoming state, and
exactly that `resolved` is handed to the transport, so pre-script
variable writes never affect the same request's own URL, headers or
body; the writes are merged into the session before the transport call
(the merge event precedes the transport event in the trace), and the
merged values are observable by the resolution of subsequent requests in
the run: the outgoing state's source list (session source first, at
priority 500) serves them. -/
theorem c8_resolve_before_prescript
    (w : World) (z : WState) (transport : RadiusRequest → Response)
    (vmRun : List Char → Option Response → ScriptBehavior)
    (st : RunnerState) (req resolved : RadiusRequest) (z2 : WState)
    (ptext : List Char) (s : SessionState)
    (hsess : st.session = some s)
    (hres : resolveRequestM w (runnerResolver st) req z = .ok (resolved, z2))
    (hpre : resolved.preScript = some ptext)
    (hsucc : (vmRun ptext none).failure = none)
    (hpost : resolved.postScript = none)
    (hw : ∃ k1 v1, lastWrite (vmRun ptext none).ops k1 = some v1) :
    ∃ stOut, executeReq w transport vmRun st req z =
        .ok (transport resolved, stOut,
          [RunEvent.resolvedReq, RunEvent.ranPre, RunEvent.mergedPreVars,
           RunEvent.calledTransport resolved]) ∧
      (∀ k v, lastWrite (vmRun ptext none).ops k = some v →
        ∃ s', stOut.session = some s' ∧ mapGet s' k = some v ∧
          (v ≠ JValue.undef →
           (∀ u ∈ st.baseSources, u.priority ≤ 500) →
           lookupSources (sortSources (currentSources stOut)) k =
             some (jsString v))) := by
  obtain ⟨k1, v1, hk1⟩ := hw
  have hnodup : ((runOps ((st.sandbox.resetContext).setVariables s).context
      (vmRun ptext none).ops).1.vars.map Prod.fst).Nodup := by
    refine runOps_vars_keys_nodup _ _ _ ?_
    exact foldl_mapSet_keys_nodup s List.Pairwise.nil
  have hgetPre : ∀ k v, lastWrite (vmRun ptext none).ops k = some v →
      mapGet (runOps ((st.sandbox.resetContext).setVariables s).context
        (vmRun ptext none).ops).1.vars k = some v := by
    intro k v hkv
    have h := runOps_vars (vmRun ptext none).ops
      ((st.sandbox.resetContext).setVariables s).context [] k
    rw [hkv] at h
    exact h
  have hvne : (runOps ((st.sandbox.resetContext).setVariables s).context
      (vmRun ptext none).ops).1.vars ≠ [] := by
    intro hnil
    have := hgetPre k1 v1 hk1
    rw [hnil] at this
    exact Option.noConfusion this
  have hie : ((runOps ((st.sandbox.resetContext).setVariables s).context
      (vmRun ptext none).ops).1.vars).isEmpty = false := by
    cases h : (runOps ((st.sandbox.resetContext).setVariables s).context
        (vmRun ptext none).ops).1.vars with
    | nil => exact absurd h hvne
    | cons x xs => rfl
  unfold executeReq
  rw [hres]
  simp only [bind, Except.bind]
  rw [hsess]
  dsimp only
  rw [hpre]
  dsimp only [Sandbox.executeScript]
  rw [hsucc]
  rw [hie]
  rw [executePost_nopost transport vmRun _ resolved _ hpost]
  refine ⟨_, rfl, ?_⟩
  intro k v hkv
  refine ⟨sessionMerge s (runOps ((st.sandbox.resetContext).setVariables s).context
      (vmRun ptext none).ops).1.vars, rfl, ?_, ?_⟩
  · rw [mapGet_sessionMerge, lastEntry_eq_mapGet hnodup, hgetPre k v hkv]
    rfl
  · intro hne hbase
    have hsget : (sessionSource (sessionMerge s
        (runOps ((st.sandbox.resetContext).setVariables s).context
          (vmRun ptext none).ops).1.vars) 500).get k = some (jsString v) := by
      show sessionSourceGet _ k = some (jsString v)
      rw [sessionSourceGet, mapGet_sessionMerge, lastEntry_eq_mapGet hnodup,
          hgetPre k v hkv]
      show (if v = JValue.undef then none else some (jsString v)) = some (jsString v)
      rw [if_neg hne]
    exact lookupSources_priority [] st.baseSources _ hsget
      (fun u hu => absurd hu (List.not_mem_nil u))
      (fun u hu _ => hbase u hu)


/-- Witness for C8: the pre-script sets `requestId`; the transport is
called with the pre-merge resolution, and the merged session holds the
write afterwards. -/
theorem c8_resolve_before_prescript_witness :
    ∃ stOut, executeReq w0 tr200 vmSetters rsEmpty reqPreOnly wst0 =
        .ok (tr200 reqPreOnly, stOut,
          [RunEvent.resolvedReq, RunEvent.ranPre, RunEvent.mergedPreVars,
           RunEvent.calledTransport reqPreOnly]) ∧
      ∃ s', stOut.session = some s' ∧
        mapGet s' "requestId".toList = some (JValue.jstr "RID".toList) := by
  have h := c8_resolve_before_prescript w0 wst0 tr200 vmSetters rsEmpty
    reqPreOnly reqPreOnly wst0 "P".toList [] rfl rfl rfl rfl rfl
    ⟨"requestId".toList, JValue.jstr "RID".toList, rfl⟩
  obtain ⟨stOut, hmain, hc⟩ := h
  obtain ⟨s', hs', hget, -⟩ := hc "requestId".toList (JValue.jstr "RID".toList) rfl
  exact ⟨stOut, hmain, s', hs', hget⟩

end Radius
